import Mathlib

/-! Lazy UnixFS DAG cursor (`tooling/car/unixfs.go`).

A shallow embedding of the cursor type `UnixfsDag` and of the functions
`newUnixfsDagFromCar`, `loadLinks`, `getNode`, `mustGetNode`, `listChildren`,
`MustGetNode`, `MustGetChildren`, `MustGetChildrenCids` and `FormatDagNode`.

The Go code works on pointers and slices, so the embedding passes an explicit
state around:

* `State.dags` is the store of allocated `UnixfsDag` structs; a `*UnixfsDag` is
  an index into it;
* `State.arrays` is the store of backing arrays of `[]string` slices; a slice is a
  header (`Slice`) naming its array and its length, its capacity is the length of
  the array;
* `State.gets` is a ghost log of the calls of `dsvc.Get`, one entry (the cursor)
  per call.

The collaborators that are not part of the file (the DAG service, the UnixFS
directory reader and the capacity chosen by `append` when it reallocates) are
the fields of `Env`; the multicodec table and the encoders `FormatDagNode` looks
up are the fields of `Multicodec`.  Console output (`fmt.Println`) is not modelled.

Go strings are modelled by `String`; `sort.Strings` compares them with
`stringLess`, the lexicographic order on code points, which on valid UTF-8 is the
byte-wise order Go uses.
-/

namespace Car

/-! ## Data model -/

/-- Content identifier (`cid.Cid`). -/
abbrev Cid := Nat

/-- Go `error` values, modelled by their message. -/
abbrev Error := String

/-- Decoded node (`format.Node`): its identifier and its raw bytes. -/
structure Node where
  cid : Cid
  rawData : List Nat
deriving DecidableEq, Repr

/-- Named link of a directory (`format.Link`). -/
structure Link where
  name : String
  cid : Cid
deriving DecidableEq, Repr

/-- The collaborators of the file.
* `Get c` is `dsvc.Get(ctx, c)`;
* `Links node` is `io.NewDirectoryFromNode(dsvc, node)` followed by `dir.Links(ctx)`,
  failing when either of the two fails;
* `growCap c` is the capacity of the array `append` allocates when a slice of
  capacity `c` is full (the embedding never allocates less than the new length). -/
structure Env where
  Get : Cid → Except Error Node
  Links : Node → Except Error (List Link)
  growCap : Nat → Nat

/-- How a call ends: with a value and a nil error, with a non-nil error, with a
panic, or (in the embedding only) because the recursion bound ran out. -/
inductive Outcome (α : Type) where
  | ok (a : α)
  | err (e : Error)
  | panic (e : Error)
  | outOfFuel
deriving DecidableEq, Repr

/-- The struct `UnixfsDag` (lines 31-36) without its `dsvc` field, which is the
same `Env` for every cursor.  `node` and `links` are `none` while the Go field is
nil; the map `links` is an association list with one entry per key. -/
structure UnixfsDag where
  cid : Cid
  node : Option Node
  links : Option (List (String × Nat))
deriving DecidableEq, Repr

/-- Header of a `[]string`: its backing array (`none` for the nil slice) and its
length. -/
structure Slice where
  arr : Option Nat
  len : Nat
deriving DecidableEq, Repr

/-- Program state: cursor store, slice backing arrays, log of `dsvc.Get` calls. -/
structure State where
  dags : List UnixfsDag
  arrays : List (List String)
  gets : List Nat
deriving DecidableEq, Repr

/-- The nil slice. -/
def Slice.nil : Slice := { arr := none, len := 0 }

/-! ## Go built-ins: maps, slices, `sort.Strings` -/

/-- The map without its entry for `k`. -/
def mapDelete : List (String × Nat) → String → List (String × Nat)
  | [], _ => []
  | e :: m, k => if e.1 = k then mapDelete m k else e :: mapDelete m k

/-- Go `m[k] = v` on a `map[string]*UnixfsDag`. -/
def mapSet (m : List (String × Nat)) (k : String) (v : Nat) : List (String × Nat) :=
  (k, v) :: mapDelete m k

/-- Go `m[k]`; `none` is the nil pointer a missing key yields. -/
def mapGet : List (String × Nat) → String → Option Nat
  | [], _ => none
  | e :: m, k => if e.1 = k then some e.2 else mapGet m k

/-- Capacity of a slice, `cap(s)`. -/
def State.cap (st : State) (s : Slice) : Nat :=
  match s.arr with
  | none => 0
  | some a => (st.arrays.getD a []).length

/-- Elements of a slice as they read in state `st`. -/
def State.read (st : State) (s : Slice) : List String :=
  match s.arr with
  | none => []
  | some a => (st.arrays.getD a []).take s.len

/-- Go `append(s, x)` for one element: when `len(s) < cap(s)` the element is
written into the backing array of `s`, which the result shares; otherwise a new
array of capacity `growCap (cap s)` (at least `len(s) + 1`) is allocated and the
elements are copied. -/
def append (env : Env) (st : State) (s : Slice) (x : String) : Slice × State :=
  match s.arr with
  | some a =>
    if s.len < st.cap s then
      ({ arr := some a, len := s.len + 1 },
       { st with arrays := st.arrays.set a ((st.arrays.getD a []).set s.len x) })
    else
      let data := st.read s ++ [x]
      ({ arr := some st.arrays.length, len := s.len + 1 },
       { st with arrays :=
           st.arrays ++ [data ++ List.replicate (env.growCap (st.cap s) - data.length) ""] })
  | none =>
    let data := [x]
    ({ arr := some st.arrays.length, len := 1 },
     { st with arrays :=
         st.arrays ++ [data ++ List.replicate (env.growCap 0 - data.length) ""] })

/-- Capacity the Go runtime picks in `growslice` when one element is appended to
a full slice of capacity `oldCap` (`nextslicecap` with `newLen = oldCap + 1`,
threshold 256), before the rounding up to an allocation size class.  The rounding
leaves the results 1, 2, 4 and 8 for the capacities 0, 1, 2 and 4 as they are,
and these are the only values the examples below use; for other capacities the
runtime may round the result up, and the formula differs between Go releases.
The general theorems hold for every `growCap`. -/
def nextslicecap (oldCap : Nat) : Nat :=
  if oldCap + 1 > oldCap + oldCap then oldCap + 1
  else if oldCap < 256 then oldCap + oldCap
  else oldCap + (oldCap + 3 * 256) / 4

/-- Lexicographic comparison of two sequences of character codes. -/
def lexLess : List Nat → List Nat → Bool
  | [], [] => false
  | [], _ :: _ => true
  | _ :: _, [] => false
  | a :: as, b :: bs => if a < b then true else if b < a then false else lexLess as bs

/-- Go `a < b` on strings. -/
def stringLess (a b : String) : Bool :=
  lexLess (a.data.map Char.toNat) (b.data.map Char.toNat)

/-- Relation `a ≤ b` on strings, that is, not `b < a`. -/
def stringLE (a b : String) : Prop := stringLess b a = false

instance stringLE.decidable : DecidableRel stringLE :=
  fun a b => inferInstanceAs (Decidable (stringLess b a = false))

/-- Go `sort.Strings`: the ascending arrangement of the slice. -/
def sortStrings (l : List String) : List String := l.insertionSort stringLE

/-! ## The functions of `unixfs.go` -/

/-- Archive as seen by `newUnixfsDagFromCar`: what `bs.Roots()` returns. -/
structure Blockstore where
  Roots : Except Error (List Cid)

/-- Lines 38-53.  `OpenReadOnly` is `blockstore.OpenReadOnly`; the returned
pointer is the new cursor. -/
def newUnixfsDagFromCar (OpenReadOnly : String → Except Error Blockstore) (st : State)
    (file : String) : Outcome Nat × State :=
  match OpenReadOnly file with
  | .error e => (.err e, st)
  | .ok bs =>
    match bs.Roots with
    | .error e => (.err e, st)
    | .ok root =>
      if root.length ≠ 1 then
        (.err ("expected 1 root, got " ++ toString root.length), st)
      else
        match root[0]? with
        | none => (.panic "index out of range", st)
        | some r =>
          (.ok st.dags.length,
           { st with dags := st.dags ++ [{ cid := r, node := none, links := none }] })

/-- Lines 65-67: one new cursor per link, entered in the map under the link name. -/
def loadLinksLoop : List Link → State → List (String × Nat) → State × List (String × Nat)
  | [], st, result => (st, result)
  | l :: ls, st, result =>
    loadLinksLoop ls
      { st with dags := st.dags ++ [{ cid := l.cid, node := none, links := none }] }
      (mapSet result l.name st.dags.length)

/-- Lines 55-70.  The receiver is used for its `dsvc` only. -/
def loadLinks (env : Env) (st : State) (node : Node) :
    Except Error (List (String × Nat)) × State :=
  match env.Links node with
  | .error e => (.error e, st)
  | .ok links =>
    match loadLinksLoop links st [] with
    | (st1, result) => (.ok result, st1)

/-- Lines 92-100, which are all that `d.getNode()` without names runs. -/
def getNodeTail (env : Env) (st : State) (d : Nat) : Outcome Node × State :=
  match st.dags[d]? with
  | none => (.panic "nil pointer dereference", st)
  | some u =>
    match u.node with
    | some n => (.ok n, st)
    | none =>
      match env.Get u.cid with
      | .error e => (.err e, { st with gets := st.gets ++ [d] })
      | .ok n =>
        (.ok n, { st with dags := st.dags.set d { u with node := some n },
                          gets := st.gets ++ [d] })

/-- Lines 79-84: the links of cursor `d`, loaded from `node` when not cached. -/
def ensureLinks (env : Env) (st : State) (d : Nat) (node : Node) :
    Outcome (List (String × Nat)) × State :=
  match st.dags[d]? with
  | none => (.panic "nil pointer dereference", st)
  | some u =>
    match u.links with
    | some m => (.ok m, st)
    | none =>
      match loadLinks env st node with
      | (.error e, st1) => (.err e, st1)
      | (.ok m, st1) => (.ok m, { st1 with dags := st1.dags.set d { u with links := some m } })

/-- Lines 73-90 followed by lines 92-100; `all` is the whole argument list, which
the error of line 88 prints. -/
def getNodeLoop (env : Env) (all : List String) :
    List String → State → Nat → Outcome Node × State
  | [], st, d => getNodeTail env st d
  | name :: rest, st, d =>
    match getNodeTail env st d with
    | (.ok node, st1) =>
      match ensureLinks env st1 d node with
      | (.ok m, st2) =>
        match mapGet m name with
        | none => (.err ("no link named " ++ String.intercalate "/" all), st2)
        | some child => getNodeLoop env all rest st2 child
      | (.err e, st2) => (.err e, st2)
      | (.panic e, st2) => (.panic e, st2)
      | (.outOfFuel, st2) => (.outOfFuel, st2)
    | (.err e, st1) => (.err e, st1)
    | (.panic e, st1) => (.panic e, st1)
    | (.outOfFuel, st1) => (.outOfFuel, st1)

/-- Lines 72-101. -/
def getNode (env : Env) (st : State) (d : Nat) (names : List String) : Outcome Node × State :=
  getNodeLoop env names names st d

/-- Lines 146-152. -/
def mustGetNode (env : Env) (st : State) (d : Nat) (names : List String) :
    Outcome Node × State :=
  match getNode env st d names with
  | (.err e, st1) => (.panic e, st1)
  | r => r

/-- The loop `for _, name := range names` of lines 128-133 with body `body`. -/
def forNames (body : State → List Slice → String → Outcome Unit × State × List Slice) :
    List String → State → List Slice → Outcome Unit × State × List Slice
  | [], st, result => (.ok (), st, result)
  | name :: names, st, result =>
    match body st result name with
    | (.ok (), st1, result1) => forNames body names st1 result1
    | other => other

/-- Lines 116-120: the links of `node`, none when `loadLinks` fails. -/
def linksOrNone (env : Env) (st : State) (node : Node) : List (String × Nat) × State :=
  match loadLinks env st node with
  | (.ok m, st1) => (m, st1)
  | (.error _, st1) => ([], st1)

/-- Line 129 with `self` for the closure: the node of the child is fetched first
(`mustGetNode`), then `append(path, name)` is evaluated, then `self` is called. -/
def descend (env : Env)
    (self : State → List Slice → Node → Slice → Outcome Unit × State × List Slice)
    (links : List (String × Nat)) (path : Slice)
    (st : State) (result : List Slice) (name : String) : Outcome Unit × State × List Slice :=
  match mapGet links name with
  | none => (.panic "nil pointer dereference", st, result)
  | some child =>
    match mustGetNode env st child [] with
    | (.ok n, st1) =>
      match append env st1 path name with
      | (p, st2) => self st2 result n p
    | (.err e, st1) => (.err e, st1, result)
    | (.panic e, st1) => (.panic e, st1, result)
    | (.outOfFuel, st1) => (.outOfFuel, st1, result)

/-- The closure `recursive` of lines 113-136; `result` is the captured variable
of `listChildren`.  The first argument bounds the depth of the recursion. -/
def recursive (env : Env) :
    Nat → State → List Slice → Node → Slice → Outcome Unit × State × List Slice
  | 0, st, result, _, _ => (.outOfFuel, st, result)
  | fuel + 1, st, result, node, path =>
    match linksOrNone env st node with
    | (links, st1) =>
      forNames (descend env (recursive env fuel) links path)
        (sortStrings (links.map Prod.fst)) st1 (result ++ [path])

/-- Lines 103-144.  `names` is the slice the variadic parameter is bound to. -/
def listChildren (env : Env) (fuel : Nat) (st : State) (d : Nat) (names : Slice) :
    Outcome (List Slice) × State :=
  match getNode env st d (st.read names) with
  | (.ok node, st1) =>
    match recursive env fuel st1 [] node names with
    | (.ok (), st2, result) => (.ok (result.drop 1), st2)
    | (.err e, st2, _) => (.err e, st2)
    | (.panic e, st2, _) => (.panic e, st2)
    | (.outOfFuel, st2, _) => (.outOfFuel, st2)
  | (.err e, st1) => (.err e, st1)
  | (.panic e, st1) => (.panic e, st1)
  | (.outOfFuel, st1) => (.outOfFuel, st1)

/-- The paths a `[][]string` holds when read in state `st`. -/
def State.paths (st : State) (r : List Slice) : List (List String) := r.map st.read

/-- What the caller of `listChildren` reads in the returned `[][]string`. -/
def listChildrenPaths (env : Env) (fuel : Nat) (st : State) (d : Nat) (names : Slice) :
    Outcome (List (List String)) :=
  match listChildren env fuel st d names with
  | (.ok r, st1) => .ok (st1.paths r)
  | (.err e, _) => .err e
  | (.panic e, _) => .panic e
  | (.outOfFuel, _) => .outOfFuel

/-- State holding one cursor for `c` with empty caches and nothing else. -/
def State.fresh (c : Cid) : State :=
  { dags := [{ cid := c, node := none, links := none }], arrays := [], gets := [] }

/-- The `calls` are made one after the other, each `(d, names)` being
`d.getNode(names...)`; the results are dropped, the state is kept. -/
def runCalls (env : Env) : State → List (Nat × List String) → State
  | st, [] => st
  | st, (d, names) :: calls => runCalls env (getNode env st d names).2 calls

/-- Modelled from the spec: the type `FixtureNode` is declared in another file
of the package; it wraps the node handed to it (with the DAG service), and its
method `Cid` returns the content identifier of that node. -/
structure FixtureNode where
  node : Node
deriving DecidableEq, Repr

/-- Modelled from the spec: `FixtureNode.Cid`, the identifier of the wrapped
node. -/
def FixtureNode.Cid (f : FixtureNode) : Cid := f.node.cid

/-- Lines 154-156. -/
def MustGetNode (env : Env) (st : State) (d : Nat) (names : List String) :
    Outcome FixtureNode × State :=
  match mustGetNode env st d names with
  | (.ok n, st1) => (.ok { node := n }, st1)
  | (.err e, st1) => (.err e, st1)
  | (.panic e, st1) => (.panic e, st1)
  | (.outOfFuel, st1) => (.outOfFuel, st1)

/-- Lines 165-167: one `MustGetNode(path...)` per listed path, each path read
when its turn comes. -/
def mustGetChildrenLoop (env : Env) (d : Nat) :
    List Slice → State → List FixtureNode → Outcome (List FixtureNode) × State
  | [], st, nodes => (.ok nodes, st)
  | path :: paths, st, nodes =>
    match MustGetNode env st d (st.read path) with
    | (.ok f, st1) => mustGetChildrenLoop env d paths st1 (nodes ++ [f])
    | (.err e, st1) => (.err e, st1)
    | (.panic e, st1) => (.panic e, st1)
    | (.outOfFuel, st1) => (.outOfFuel, st1)

/-- Lines 158-170. -/
def MustGetChildren (env : Env) (fuel : Nat) (st : State) (d : Nat) (names : Slice) :
    Outcome (List FixtureNode) × State :=
  match listChildren env fuel st d names with
  | (.ok paths, st1) => mustGetChildrenLoop env d paths st1 []
  | (.err e, st1) => (.panic e, st1)
  | (.panic e, st1) => (.panic e, st1)
  | (.outOfFuel, st1) => (.outOfFuel, st1)

/-- Lines 172-179; `str` is the method `String` of `cid.Cid`. -/
def MustGetChildrenCids (env : Env) (str : Cid → String) (fuel : Nat) (st : State) (d : Nat)
    (names : Slice) : Outcome (List String) × State :=
  match MustGetChildren env fuel st d names with
  | (.ok nodes, st1) => (.ok (nodes.map fun f => str f.Cid), st1)
  | (.err e, st1) => (.err e, st1)
  | (.panic e, st1) => (.panic e, st1)
  | (.outOfFuel, st1) => (.outOfFuel, st1)

/-- The multicodec packages as `FormatDagNode` uses them.
* `Set text` is `codec.Set(text)` on a zero `mc.Code`: the code the text names,
  or an error;
* `codeString c` is the method `String` of `mc.Code`, which `%s` prints;
* `LookupEncoder c` is `multicodec.LookupEncoder(uint64(c))`; an encoder applied
  to a node and an empty buffer yields the bytes it wrote and the error it
  returned, if any. -/
structure Multicodec where
  Set : String → Except Error Nat
  codeString : Nat → String
  LookupEncoder : Nat → Except Error (Node → List Nat × Option Error)

/-- Lines 198-218. -/
def FormatDagNode (mc : Multicodec) (node : Node) (codecStr : String) : Outcome (List Nat) :=
  match mc.Set codecStr with
  | .error e => .panic e
  | .ok codec =>
    match mc.LookupEncoder codec with
    | .error e => .panic ("invalid encoding: " ++ mc.codeString codec ++ " - " ++ e)
    | .ok encoder =>
      match encoder node with
      | (_, some e) => .panic e
      | (output, none) => .ok output

/-! ## Reference definitions, free of caches, pointers and slices -/

/-- An external result as the outcome of a call that passes it on. -/
def Outcome.ofExcept {α : Type} : Except Error α → Outcome α
  | .ok a => .ok a
  | .error e => .err e

/-- Identifier under `name` in the links `ls`: that of the last link of that
name, the one a Go map filled in list order keeps. -/
def lastLink : List Link → String → Option Cid
  | [], _ => none
  | l :: ls, name =>
    match lastLink ls name with
    | some c => some c
    | none => if l.name = name then some l.cid else none

/-- Identifier reached from `c` by following, for each segment in order, the link
of that name in the links extracted from the node fetched for the current
identifier; `none` when a block on the way cannot be fetched, the extraction
fails, or the segment is not a link name of the current node. -/
def follow (env : Env) : Cid → List String → Option Cid
  | c, [] => some c
  | c, name :: rest =>
    match env.Get c with
    | .error _ => none
    | .ok n =>
      match env.Links n with
      | .error _ => none
      | .ok ls =>
        match lastLink ls name with
        | none => none
        | some c1 => follow env c1 rest

/-- Whether the walk from `c` along `names` fails: some block on the way (that of
the final cursor included) cannot be fetched, the extraction of the links fails
on a node that still has a segment to consume, or a segment is not a link name
of the current node. -/
def walkFails (env : Env) : Cid → List String → Bool
  | c, [] =>
    match env.Get c with
    | .error _ => true
    | .ok _ => false
  | c, name :: rest =>
    match env.Get c with
    | .error _ => true
    | .ok n =>
      match env.Links n with
      | .error _ => true
      | .ok ls =>
        match lastLink ls name with
        | none => true
        | some c1 => walkFails env c1 rest

/-- Path resolution as the specification words it (section 4.2), on
identifiers: fetch the current node, extract its links, look the segment up by
exact name, move to the child; after the last segment fetch the node.  `all` is
the requested path, named by the error of a missing link. -/
def resolveSpec (env : Env) (all : List String) : Cid → List String → Outcome Node
  | c, [] => Outcome.ofExcept (env.Get c)
  | c, name :: rest =>
    match env.Get c with
    | .error e => .err e
    | .ok n =>
      match env.Links n with
      | .error e => .err e
      | .ok ls =>
        match lastLink ls name with
        | none => .err ("no link named " ++ String.intercalate "/" all)
        | some c1 => resolveSpec env all c1 rest

/-- Position and name of the first segment of `names` that is not a link name of
the directory reached by the segments before it (`none` when there is no such
segment, or when a fetch or an extraction fails before one is met). -/
def missingSegment (env : Env) : Cid → List String → Nat → Option (Nat × String)
  | _, [], _ => none
  | c, name :: rest, i =>
    match env.Get c with
    | .error _ => none
    | .ok n =>
      match env.Links n with
      | .error _ => none
      | .ok ls =>
        match lastLink ls name with
        | none => some (i, name)
        | some c1 => missingSegment env c1 rest (i + 1)

/-- Link names of a directory in ascending order, each once. -/
def childNames (ls : List Link) : List String :=
  sortStrings (ls.map Link.name).dedup

/-- Strict descendants of `node` in depth-first pre-order, children in ascending
name order, each as `base` followed by the link names leading to it (section
4.3).  A node whose links cannot be extracted has no children.  The first
argument bounds the depth. -/
def descendantsSpec (env : Env) : Nat → Node → List String → List (List String)
  | 0, _, _ => []
  | fuel + 1, node, base =>
    match env.Links node with
    | .error _ => []
    | .ok ls =>
      (childNames ls).flatMap fun name =>
        match lastLink ls name with
        | none => []
        | some c =>
          match env.Get c with
          | .error _ => []
          | .ok n => (base ++ [name]) :: descendantsSpec env fuel n (base ++ [name])

/-- The environment in which every node whose links cannot be extracted is a
directory without links. -/
def Env.leavesAsEmptyDirs (env : Env) : Env :=
  { env with Links := fun n =>
      match env.Links n with
      | .ok ls => .ok ls
      | .error _ => .ok [] }

/-! ## Invariant of the cursor store -/

/-- The map entry `o` of a cursor is the cursor of the link target `oc`. -/
def LinkRel (dags : List UnixfsDag) (o : Option Nat) (oc : Option Cid) : Prop :=
  (oc = none → o = none) ∧
  ∀ c, oc = some c → ∃ (q : Nat) (u : UnixfsDag), o = some q ∧ dags[q]? = some u ∧ u.cid = c

/-- Every cursor of `st` is a cursor of `st1` with the same identifier. -/
def Extends (st st1 : State) : Prop :=
  ∀ (p : Nat) (u : UnixfsDag), st.dags[p]? = some u →
    ∃ u1 : UnixfsDag, st1.dags[p]? = some u1 ∧ u1.cid = u.cid

/-- What holds of every state the functions produce from a new cursor: a cached
node is the node `Get` returns for the identifier, a cached map is the one built
from the links of that node, `Get` has been called for allocated cursors only,
and for a cursor whose block can be fetched it has been called at most once, and
not at all while the node cache is empty. -/
structure Inv (env : Env) (st : State) : Prop where
  node_ok : ∀ (p : Nat) (u : UnixfsDag) (n : Node), st.dags[p]? = some u → u.node = some n → env.Get u.cid = .ok n
  links_ok : ∀ (p : Nat) (u : UnixfsDag) (m : List (String × Nat)), st.dags[p]? = some u → u.links = some m →
    ∃ n ls, env.Get u.cid = .ok n ∧ env.Links n = .ok ls ∧
      ∀ name, LinkRel st.dags (mapGet m name) (lastLink ls name)
  gets_lt : ∀ p, p ∈ st.gets → p < st.dags.length
  gets_once : ∀ (p : Nat) (u : UnixfsDag) (n : Node), st.dags[p]? = some u → env.Get u.cid = .ok n → st.gets.count p ≤ 1
  gets_none : ∀ (p : Nat) (u : UnixfsDag) (n : Node), st.dags[p]? = some u → env.Get u.cid = .ok n → u.node = none →
    st.gets.count p = 0

/-- Frame of a call: the slice arrays are untouched, and every cursor is still
there with its identifier, with the node it had cached and with the links it had
cached. -/
def Frame (st st1 : State) : Prop :=
  st1.arrays = st.arrays ∧
  ∀ (p : Nat) (u : UnixfsDag), st.dags[p]? = some u →
    ∃ u1 : UnixfsDag, st1.dags[p]? = some u1 ∧ u1.cid = u.cid ∧
      (∀ n, u.node = some n → u1.node = some n) ∧
      (∀ m, u.links = some m → u1.links = some m)

/-! ## Link graph -/

/-- Node `n1` is a child of `n`: the node fetched for the identifier that the
links of `n` give to some name. -/
def IsChild (env : Env) (n n1 : Node) : Prop :=
  ∃ ls name c, env.Links n = .ok ls ∧ lastLink ls name = some c ∧ env.Get c = .ok n1

/-- The nodes of the link graph below `start`, `start` included. -/
inductive Below (env : Env) (start : Node) : Node → Prop where
  | refl : Below env start start
  | step {n n1 : Node} : Below env start n → IsChild env n n1 → Below env start n1

/-! ## Example graphs -/

/-- Node with identifier `c` and no data. -/
def nodeOf (c : Cid) : Node := { cid := c, rawData := [] }

/-- Graph `0 -a-> 1 -b-> 2 -c-> 3`, node 3 with the links `x -> 4` and `y -> 5` in
this order; nodes 4 and 5 are files; no other block exists. -/
def deepEnv : Env where
  Get c := if c ≤ 5 then .ok (nodeOf c) else .error "block not found"
  Links n :=
    if n.cid = 0 then .ok [⟨"a", 1⟩]
    else if n.cid = 1 then .ok [⟨"b", 2⟩]
    else if n.cid = 2 then .ok [⟨"c", 3⟩]
    else if n.cid = 3 then .ok [⟨"x", 4⟩, ⟨"y", 5⟩]
    else .error "not a directory"
  growCap := nextslicecap

/-- Graph `0 -p-> 1 -q-> 2 -r-> 3`, node 3 with the links `b -> 4` and `a -> 5`
returned in this order; nodes 4 and 5 are files. -/
def unsortedEnv : Env where
  Get c := if c ≤ 5 then .ok (nodeOf c) else .error "block not found"
  Links n :=
    if n.cid = 0 then .ok [⟨"p", 1⟩]
    else if n.cid = 1 then .ok [⟨"q", 2⟩]
    else if n.cid = 2 then .ok [⟨"r", 3⟩]
    else if n.cid = 3 then .ok [⟨"b", 4⟩, ⟨"a", 5⟩]
    else .error "not a directory"
  growCap := nextslicecap

/-- Directory 0 with the single link `a -> 1`, node 1 a directory without links;
no other block exists. -/
def smallEnv : Env where
  Get c := if c ≤ 1 then .ok (nodeOf c) else .error "block not found"
  Links n := if n.cid = 0 then .ok [⟨"a", 1⟩] else .ok []
  growCap := nextslicecap

/-- Directory 0 with the links `f -> 1` and `g -> 2`; nodes 1 and 2 are files. -/
def filesEnv : Env where
  Get c := if c ≤ 2 then .ok (nodeOf c) else .error "block not found"
  Links n := if n.cid = 0 then .ok [⟨"f", 1⟩, ⟨"g", 2⟩] else .error "not a directory"
  growCap := nextslicecap

/-- Directory 0 with the single link `a -> 7`; the block of 7 is absent. -/
def danglingEnv : Env where
  Get c := if c = 0 then .ok (nodeOf c) else .error "block not found"
  Links n := if n.cid = 0 then .ok [⟨"a", 7⟩] else .error "not a directory"
  growCap := nextslicecap

/-- A height for the graph of `filesEnv`: 1 for the root directory, 0 for the
files. -/
def filesHeight (n : Node) : Nat := if n.cid = 0 then 1 else 0

/-- Graph `0 -a-> 1 -b-> 2 -c-> 3 -d-> 4 -e-> 5`, node 5 with the links `p -> 6`
and `q -> 7`, node 6 with the link `r -> 8`; nodes 7 and 8 are files. -/
def deeperEnv : Env where
  Get c := if c ≤ 8 then .ok (nodeOf c) else .error "block not found"
  Links n :=
    if n.cid = 0 then .ok [⟨"a", 1⟩]
    else if n.cid = 1 then .ok [⟨"b", 2⟩]
    else if n.cid = 2 then .ok [⟨"c", 3⟩]
    else if n.cid = 3 then .ok [⟨"d", 4⟩]
    else if n.cid = 4 then .ok [⟨"e", 5⟩]
    else if n.cid = 5 then .ok [⟨"p", 6⟩, ⟨"q", 7⟩]
    else if n.cid = 6 then .ok [⟨"r", 8⟩]
    else .error "not a directory"
  growCap := nextslicecap

/-- A codec table cut down to two names of the multicodec table: `dag-pb` (code
112), whose encoder writes the block of a dag-pb node and returns an error,
without writing, on a node that is not one (here node 1, a raw leaf), and
`sha2-256` (code 18), a hash function, for which no encoder is registered.
`unknown`, `noEncoder` and `wrongKind` are the errors of `codec.Set`, of
`LookupEncoder` and of the encoder, whose texts belong to the libraries. -/
def sampleCodecs (unknown : String → Error) (noEncoder : Nat → Error) (wrongKind : Error) :
    Multicodec where
  Set text :=
    if text = "dag-pb" then .ok 112
    else if text = "sha2-256" then .ok 18
    else .error (unknown text)
  codeString c :=
    if c = 112 then "dag-pb" else if c = 18 then "sha2-256" else "Code(" ++ toString c ++ ")"
  LookupEncoder c :=
    if c = 112 then .ok (fun n => if n.cid = 1 then ([], some wrongKind) else (n.rawData, none))
    else .error (noEncoder c)

/-! ## `sort.Strings` -/

theorem lexLess_irrefl (a : List Nat) : lexLess a a = false := by
  induction a with
  | nil => rfl
  | cons x xs ih => simp [lexLess, ih]

theorem lexLess_trans (a : List Nat) :
    ∀ b c : List Nat, lexLess a b = true → lexLess b c = true → lexLess a c = true := by
  induction a with
  | nil =>
    intro b c h1 h2
    cases b with
    | nil => simp [lexLess] at h1
    | cons y ys =>
      cases c with
      | nil => simp [lexLess] at h2
      | cons z zs => rfl
  | cons x xs ih =>
    intro b c h1 h2
    cases b with
    | nil => simp [lexLess] at h1
    | cons y ys =>
      cases c with
      | nil => simp [lexLess] at h2
      | cons z zs =>
        simp only [lexLess] at h1 h2 ⊢
        by_cases hxy : x < y
        · by_cases hyz : y < z
          · simp [lt_trans hxy hyz]
          · by_cases hzy : z < y
            · simp [hyz, hzy] at h2
            · have : y = z := le_antisymm (not_lt.mp hzy) (not_lt.mp hyz)
              subst this
              simp [hxy]
        · by_cases hyx : y < x
          · simp [hxy, hyx] at h1
          · have hxy1 : x = y := le_antisymm (not_lt.mp hyx) (not_lt.mp hxy)
            subst hxy1
            simp only [hxy, if_false] at h1
            by_cases hxz : x < z
            · simp [hxz]
            · by_cases hzx : z < x
              · simp [hxz, hzx] at h2
              · simp only [hxz, hzx, if_false] at h2 ⊢
                exact ih ys zs h1 h2

theorem lexLess_connex (a : List Nat) :
    ∀ b : List Nat, lexLess a b = false → lexLess b a = false → a = b := by
  induction a with
  | nil =>
    intro b h1 _
    cases b with
    | nil => rfl
    | cons y ys => simp [lexLess] at h1
  | cons x xs ih =>
    intro b h1 h2
    cases b with
    | nil => simp [lexLess] at h2
    | cons y ys =>
      simp only [lexLess] at h1 h2
      by_cases hxy : x < y
      · simp [hxy] at h1
      · by_cases hyx : y < x
        · simp [hyx] at h2
        · have : x = y := le_antisymm (not_lt.mp hyx) (not_lt.mp hxy)
          subst this
          simp only [hxy, if_false] at h1 h2
          rw [ih ys h1 h2]

theorem stringLess_connex (a b : String)
    (h1 : stringLess a b = false) (h2 : stringLess b a = false) : a = b := by
  have h := lexLess_connex _ _ h1 h2
  apply String.ext
  have hinj : Function.Injective Char.toNat := by
    intro c d hcd
    rw [← Char.ofNat_toNat c, ← Char.ofNat_toNat d, hcd]
  exact List.map_injective_iff.mpr hinj h

theorem stringLE_total (a b : String) : stringLE a b ∨ stringLE b a := by
  unfold stringLE
  cases h : stringLess b a with
  | false => exact Or.inl rfl
  | true =>
    right
    cases h1 : stringLess a b with
    | false => rfl
    | true =>
      have := lexLess_trans _ _ _ h h1
      rw [lexLess_irrefl] at this
      cases this

theorem stringLE_trans (a b c : String) (h1 : stringLE a b) (h2 : stringLE b c) :
    stringLE a c := by
  unfold stringLE at *
  cases h : stringLess c a with
  | false => rfl
  | true =>
    cases hab : stringLess a b with
    | false =>
      have := stringLess_connex a b hab h1
      subst this
      rw [h] at h2
      cases h2
    | true =>
      have := lexLess_trans _ _ _ h hab
      unfold stringLess at h2
      rw [this] at h2
      cases h2

/-- The result of `sort.Strings` is in ascending order. -/
theorem sortStrings_sorted (l : List String) : (sortStrings l).Sorted stringLE := by
  haveI : IsTotal String stringLE := ⟨stringLE_total⟩
  haveI : IsTrans String stringLE := ⟨stringLE_trans⟩
  exact List.sorted_insertionSort stringLE l

/-- The result of `sort.Strings` does not depend on the order of its input, so
neither does the walk depend on the order in which a Go map is ranged over. -/
theorem sortStrings_perm (l1 l2 : List String) (h : l1.Perm l2) :
    sortStrings l1 = sortStrings l2 := by
  haveI : IsAntisymm String stringLE := ⟨fun a b h1 h2 => stringLess_connex a b h2 h1⟩
  apply List.eq_of_perm_of_sorted _ (sortStrings_sorted l1) (sortStrings_sorted l2)
  exact ((List.perm_insertionSort stringLE l1).trans h).trans
    (List.perm_insertionSort stringLE l2).symm

/-! ## Maps and the cursors `loadLinks` allocates -/

theorem mapGet_mapDelete_ne (m : List (String × Nat)) (k k1 : String) (h : k1 ≠ k) :
    mapGet (mapDelete m k) k1 = mapGet m k1 := by
  induction m with
  | nil => rfl
  | cons e m ih =>
    by_cases he : e.1 = k
    · have hne : ¬ e.1 = k1 := fun h1 => h (h1.symm.trans he)
      simp only [mapDelete, he, if_true, mapGet, hne, if_false, ih]
      rw [← he, if_neg hne]
    · by_cases h1 : e.1 = k1
      · have hk : ¬ k1 = k := h
        rw [h1] at he
        simp only [mapDelete, h1, hk, if_false, mapGet, if_true]
      · simp only [mapDelete, he, if_false, mapGet, h1, ih]

theorem mapGet_mapSet_self (m : List (String × Nat)) (k : String) (v : Nat) :
    mapGet (mapSet m k v) k = some v := by
  simp [mapSet, mapGet]

theorem mapGet_mapSet_ne (m : List (String × Nat)) (k k1 : String) (v : Nat) (h : k1 ≠ k) :
    mapGet (mapSet m k v) k1 = mapGet m k1 := by
  have hk : ¬ k = k1 := fun h1 => h h1.symm
  simp only [mapSet, mapGet, hk, if_false]
  exact mapGet_mapDelete_ne m k k1 h

/-- The loop of `loadLinks` appends one cursor with empty caches per link and
touches nothing else. -/
theorem loadLinksLoop_state (ls : List Link) (st : State) (m : List (String × Nat)) :
    (loadLinksLoop ls st m).1.dags
        = st.dags ++ ls.map (fun l => { cid := l.cid, node := none, links := none }) ∧
      (loadLinksLoop ls st m).1.arrays = st.arrays ∧
      (loadLinksLoop ls st m).1.gets = st.gets := by
  induction ls generalizing st m with
  | nil => simp [loadLinksLoop]
  | cons l ls ih =>
    obtain ⟨h1, h2, h3⟩ := ih
      { st with dags := st.dags ++ [{ cid := l.cid, node := none, links := none }] }
      (mapSet m l.name st.dags.length)
    simp only [loadLinksLoop]
    refine ⟨?_, h2, h3⟩
    rw [h1]
    simp

/-- The map the loop of `loadLinks` builds: a name that is no link name keeps
its entry, a link name is bound to a new cursor for the last link of that name. -/
theorem loadLinksLoop_map (ls : List Link) (st : State) (m : List (String × Nat))
    (name : String) :
    (lastLink ls name = none →
        mapGet (loadLinksLoop ls st m).2 name = mapGet m name) ∧
      ∀ c, lastLink ls name = some c →
        ∃ q, mapGet (loadLinksLoop ls st m).2 name = some q ∧ st.dags.length ≤ q ∧
          (loadLinksLoop ls st m).1.dags[q]? = some { cid := c, node := none, links := none } := by
  induction ls generalizing st m with
  | nil =>
    refine ⟨fun _ => rfl, ?_⟩
    intro c hc
    simp [lastLink] at hc
  | cons l ls ih =>
    have ih1 := ih
      { st with dags := st.dags ++ [{ cid := l.cid, node := none, links := none }] }
      (mapSet m l.name st.dags.length)
    have hst := loadLinksLoop_state ls
      { st with dags := st.dags ++ [{ cid := l.cid, node := none, links := none }] }
      (mapSet m l.name st.dags.length)
    simp only [loadLinksLoop]
    cases hl : lastLink ls name with
    | some c1 =>
      refine ⟨?_, ?_⟩
      · intro h
        simp [lastLink, hl] at h
      · intro c hc
        simp only [lastLink, hl] at hc
        obtain ⟨q, hq1, hq2, hq3⟩ := ih1.2 c1 hl
        refine ⟨q, hq1, ?_, ?_⟩
        · simp at hq2
          omega
        · rw [hq3]
          cases hc
          rfl
    | none =>
      have hkeep := ih1.1 hl
      by_cases hn : l.name = name
      · refine ⟨?_, ?_⟩
        · intro h
          simp [lastLink, hl, hn] at h
        · intro c hc
          simp only [lastLink, hl, hn, if_true] at hc
          cases hc
          refine ⟨st.dags.length, ?_, le_refl _, ?_⟩
          · rw [hkeep, ← hn]
            exact mapGet_mapSet_self _ _ _
          · rw [hst.1, List.append_assoc,
              List.getElem?_append_right (le_refl _)]
            simp
      · refine ⟨?_, ?_⟩
        · intro _
          rw [hkeep]
          exact mapGet_mapSet_ne _ _ _ _ (fun h => hn h.symm)
        · intro c hc
          simp [lastLink, hl, hn] at hc

/-! ## The invariant of the cursor store is kept -/

theorem Extends.refl (st : State) : Extends st st :=
  fun _ u h => ⟨u, h, rfl⟩

theorem Extends.trans {a b c : State} (h1 : Extends a b) (h2 : Extends b c) : Extends a c := by
  intro p u h
  obtain ⟨u1, hu1, hc1⟩ := h1 p u h
  obtain ⟨u2, hu2, hc2⟩ := h2 p u1 hu1
  exact ⟨u2, hu2, hc2.trans hc1⟩

theorem LinkRel.mono {st st1 : State} (h : Extends st st1) {o : Option Nat} {oc : Option Cid}
    (hr : LinkRel st.dags o oc) : LinkRel st1.dags o oc := by
  refine ⟨hr.1, ?_⟩
  intro c hc
  obtain ⟨q, u, ho, hq, hu⟩ := hr.2 c hc
  obtain ⟨u1, hq1, hu1⟩ := h q u hq
  exact ⟨q, u1, ho, hq1, hu1.trans hu⟩

/-- Overwriting a cursor by one with the same identifier extends the store. -/
theorem extends_set (st st1 : State) (d : Nat) (u u1 : UnixfsDag)
    (hd : st.dags[d]? = some u) (hc : u1.cid = u.cid) (h1 : st1.dags = st.dags.set d u1) :
    Extends st st1 := by
  intro p w hp
  rw [h1, List.getElem?_set]
  by_cases hdp : d = p
  · subst hdp
    have hlt : d < st.dags.length := by
      by_contra hge
      rw [List.getElem?_eq_none (not_lt.mp hge)] at hd
      cases hd
    rw [hd] at hp
    cases hp
    exact ⟨u1, by simp [hlt], hc⟩
  · exact ⟨w, by simp [hdp, hp], rfl⟩

theorem lt_of_getElem?_eq_some {α : Type} {l : List α} {i : Nat} {a : α}
    (h : l[i]? = some a) : i < l.length := by
  by_contra hge
  rw [List.getElem?_eq_none (not_lt.mp hge)] at h
  cases h

theorem inv_fresh (env : Env) (c : Cid) : Inv env (State.fresh c) := by
  refine ⟨?_, ?_, ?_, ?_, ?_⟩
  · intro p u n hp hn
    have hlt := lt_of_getElem?_eq_some hp
    simp only [State.fresh, List.length_singleton, Nat.lt_one_iff] at hlt
    subst hlt
    simp [State.fresh] at hp
    subst hp
    cases hn
  · intro p u m hp hm
    have hlt := lt_of_getElem?_eq_some hp
    simp only [State.fresh, List.length_singleton, Nat.lt_one_iff] at hlt
    subst hlt
    simp [State.fresh] at hp
    subst hp
    cases hm
  · intro p hp
    simp [State.fresh] at hp
  · intro p u n _ _
    simp [State.fresh]
  · intro p u n _ _ _
    simp [State.fresh]

theorem getNodeTail_cached (env : Env) (st : State) (d : Nat) (u : UnixfsDag) (n : Node)
    (hd : st.dags[d]? = some u) (hn : u.node = some n) :
    getNodeTail env st d = (.ok n, st) := by
  simp only [getNodeTail, hd, hn]

theorem getNodeTail_error (env : Env) (st : State) (d : Nat) (u : UnixfsDag) (e : Error)
    (hd : st.dags[d]? = some u) (hn : u.node = none) (hg : env.Get u.cid = .error e) :
    getNodeTail env st d = (.err e, { st with gets := st.gets ++ [d] }) := by
  simp only [getNodeTail, hd, hn, hg]

theorem getNodeTail_fetched (env : Env) (st : State) (d : Nat) (u : UnixfsDag) (n : Node)
    (hd : st.dags[d]? = some u) (hn : u.node = none) (hg : env.Get u.cid = .ok n) :
    getNodeTail env st d
      = (.ok n, { st with dags := st.dags.set d { u with node := some n },
                          gets := st.gets ++ [d] }) := by
  simp only [getNodeTail, hd, hn, hg]

/-- Lines 92-100 on a cursor of a store that satisfies the invariant: the result
is what `Get` returns for the identifier, whether the node was cached or not. -/
theorem getNodeTail_spec (env : Env) (st : State) (d : Nat) (u : UnixfsDag)
    (hI : Inv env st) (hd : st.dags[d]? = some u) :
    (getNodeTail env st d).1 = Outcome.ofExcept (env.Get u.cid) ∧
      Inv env (getNodeTail env st d).2 ∧ Extends st (getNodeTail env st d).2 := by
  have hlt := lt_of_getElem?_eq_some hd
  cases hn : u.node with
  | some n =>
    rw [getNodeTail_cached env st d u n hd hn, hI.node_ok d u n hd hn]
    exact ⟨rfl, hI, Extends.refl st⟩
  | none =>
    cases hg : env.Get u.cid with
    | error e =>
      rw [getNodeTail_error env st d u e hd hn hg]
      refine ⟨rfl, ⟨hI.node_ok, hI.links_ok, ?_, ?_, ?_⟩, Extends.refl _⟩
      · intro p hp
        simp only [List.mem_append, List.mem_singleton] at hp
        rcases hp with hp | hp
        · exact hI.gets_lt p hp
        · subst hp
          exact hlt
      · intro p w n hp hgp
        have hne : p ≠ d := by
          rintro rfl
          simp only at hp
          rw [hd] at hp
          cases hp
          rw [hg] at hgp
          cases hgp
        have := hI.gets_once p w n hp hgp
        simp only [List.count_append, List.count_singleton]
        simp [Ne.symm hne, this]
      · intro p w n hp hgp hwn
        have hne : p ≠ d := by
          rintro rfl
          simp only at hp
          rw [hd] at hp
          cases hp
          rw [hg] at hgp
          cases hgp
        have := hI.gets_none p w n hp hgp hwn
        simp only [List.count_append, List.count_singleton]
        simp [Ne.symm hne, this]
    | ok n =>
      rw [getNodeTail_fetched env st d u n hd hn hg]
      have hext : Extends st
          { st with dags := st.dags.set d { u with node := some n }, gets := st.gets ++ [d] } :=
        extends_set st _ d u { u with node := some n } hd rfl rfl
      refine ⟨rfl, ⟨?_, ?_, ?_, ?_, ?_⟩, hext⟩
      · intro p w n1 hp hw
        simp only [List.getElem?_set] at hp
        by_cases hdp : d = p
        · simp only [hdp, if_true] at hp
          subst hdp
          simp only [hlt, if_true, Option.some.injEq] at hp
          subst hp
          simp only [Option.some.injEq] at hw
          subst hw
          exact hg
        · simp only [hdp, if_false] at hp
          exact hI.node_ok p w n1 hp hw
      · intro p w m hp hw
        simp only [List.getElem?_set] at hp
        by_cases hdp : d = p
        · simp only [hdp, if_true] at hp
          subst hdp
          simp only [hlt, if_true, Option.some.injEq] at hp
          subst hp
          obtain ⟨n1, ls, h1, h2, h3⟩ := hI.links_ok d u m hd hw
          exact ⟨n1, ls, h1, h2, fun name => LinkRel.mono hext (h3 name)⟩
        · simp only [hdp, if_false] at hp
          obtain ⟨n1, ls, h1, h2, h3⟩ := hI.links_ok p w m hp hw
          exact ⟨n1, ls, h1, h2, fun name => LinkRel.mono hext (h3 name)⟩
      · intro p hp
        simp only [List.mem_append, List.mem_singleton] at hp
        simp only [List.length_set]
        rcases hp with hp | hp
        · exact hI.gets_lt p hp
        · subst hp
          exact hlt
      · intro p w n1 hp hgp
        simp only [List.getElem?_set] at hp
        by_cases hdp : d = p
        · subst hdp
          have := hI.gets_none d u n hd hg hn
          simp only [List.count_append, List.count_singleton]
          simp [this]
        · simp only [hdp, if_false] at hp
          have := hI.gets_once p w n1 hp hgp
          simp only [List.count_append, List.count_singleton]
          simp [hdp, this]
      · intro p w n1 hp hgp hwn
        simp only [List.getElem?_set] at hp
        by_cases hdp : d = p
        · simp only [hdp, if_true] at hp
          subst hdp
          simp only [hlt, if_true, Option.some.injEq] at hp
          subst hp
          cases hwn
        · simp only [hdp, if_false] at hp
          have := hI.gets_none p w n1 hp hgp hwn
          simp only [List.count_append, List.count_singleton]
          simp [hdp, this]

/-- Allocating cursors with empty caches keeps the invariant. -/
theorem inv_alloc (env : Env) (st st1 : State) (new : List UnixfsDag)
    (hnew : ∀ w, w ∈ new → w.node = none ∧ w.links = none)
    (h1 : st1.dags = st.dags ++ new) (h2 : st1.gets = st.gets) (hI : Inv env st) :
    Inv env st1 ∧ Extends st st1 := by
  have hext : Extends st st1 := by
    intro p u hp
    refine ⟨u, ?_, rfl⟩
    rw [h1, List.getElem?_append_left (lt_of_getElem?_eq_some hp)]
    exact hp
  have hcases : ∀ (p : Nat) (w : UnixfsDag), st1.dags[p]? = some w →
      st.dags[p]? = some w ∨ (st.dags.length ≤ p ∧ w.node = none ∧ w.links = none) := by
    intro p w hp
    rw [h1] at hp
    by_cases hlt : p < st.dags.length
    · rw [List.getElem?_append_left hlt] at hp
      exact Or.inl hp
    · rw [List.getElem?_append_right (not_lt.mp hlt)] at hp
      exact Or.inr ⟨not_lt.mp hlt, hnew w (List.getElem?_mem hp)⟩
  have hcount : ∀ p, st.dags.length ≤ p → st.gets.count p = 0 := by
    intro p hp
    apply List.count_eq_zero_of_not_mem
    intro hmem
    have := hI.gets_lt p hmem
    omega
  refine ⟨⟨?_, ?_, ?_, ?_, ?_⟩, hext⟩
  · intro p w n hp hn
    rcases hcases p w hp with h | ⟨_, h, _⟩
    · exact hI.node_ok p w n h hn
    · rw [h] at hn
      cases hn
  · intro p w m hp hm
    rcases hcases p w hp with h | ⟨_, _, h⟩
    · obtain ⟨n1, ls, g1, g2, g3⟩ := hI.links_ok p w m h hm
      exact ⟨n1, ls, g1, g2, fun name => LinkRel.mono hext (g3 name)⟩
    · rw [h] at hm
      cases hm
  · intro p hp
    rw [h2] at hp
    have := hI.gets_lt p hp
    rw [h1, List.length_append]
    omega
  · intro p w n hp hg
    rw [h2]
    rcases hcases p w hp with h | ⟨h, _, _⟩
    · exact hI.gets_once p w n h hg
    · rw [hcount p h]
      exact Nat.zero_le _
  · intro p w n hp hg hn
    rw [h2]
    rcases hcases p w hp with h | ⟨h, _, _⟩
    · exact hI.gets_none p w n h hg hn
    · exact hcount p h

/-- Caching in cursor `d` a map that agrees with the links of its node keeps the
invariant. -/
theorem inv_set_links (env : Env) (st st2 : State) (d : Nat) (u : UnixfsDag)
    (m : List (String × Nat)) (n : Node) (ls : List Link)
    (hI : Inv env st) (hd : st.dags[d]? = some u)
    (hg : env.Get u.cid = .ok n) (hl : env.Links n = .ok ls)
    (hm : ∀ name, LinkRel st.dags (mapGet m name) (lastLink ls name))
    (h1 : st2.dags = st.dags.set d { u with links := some m }) (h2 : st2.gets = st.gets) :
    Inv env st2 ∧ Extends st st2 := by
  have hlt := lt_of_getElem?_eq_some hd
  have hext : Extends st st2 := extends_set st st2 d u { u with links := some m } hd rfl h1
  have hcases : ∀ (p : Nat) (w : UnixfsDag), st2.dags[p]? = some w →
      (p ≠ d ∧ st.dags[p]? = some w) ∨ (p = d ∧ w = { u with links := some m }) := by
    intro p w hp
    rw [h1, List.getElem?_set] at hp
    by_cases hdp : d = p
    · subst hdp
      simp only [if_true, hlt, Option.some.injEq] at hp
      exact Or.inr ⟨rfl, hp.symm⟩
    · simp only [hdp, if_false] at hp
      exact Or.inl ⟨fun h => hdp h.symm, hp⟩
  refine ⟨⟨?_, ?_, ?_, ?_, ?_⟩, hext⟩
  · intro p w n1 hp hn
    rcases hcases p w hp with ⟨_, h⟩ | ⟨_, h⟩
    · exact hI.node_ok p w n1 h hn
    · subst h
      exact hI.node_ok d u n1 hd hn
  · intro p w m1 hp hm1
    rcases hcases p w hp with ⟨_, h⟩ | ⟨_, h⟩
    · obtain ⟨n1, ls1, g1, g2, g3⟩ := hI.links_ok p w m1 h hm1
      exact ⟨n1, ls1, g1, g2, fun name => LinkRel.mono hext (g3 name)⟩
    · subst h
      simp only [Option.some.injEq] at hm1
      subst hm1
      exact ⟨n, ls, hg, hl, fun name => LinkRel.mono hext (hm name)⟩
  · intro p hp
    rw [h2] at hp
    have := hI.gets_lt p hp
    rw [h1, List.length_set]
    exact this
  · intro p w n1 hp hgp
    rw [h2]
    rcases hcases p w hp with ⟨_, h⟩ | ⟨hpd, h⟩
    · exact hI.gets_once p w n1 h hgp
    · subst h
      subst hpd
      exact hI.gets_once p u n1 hd hgp
  · intro p w n1 hp hgp hn
    rw [h2]
    rcases hcases p w hp with ⟨_, h⟩ | ⟨hpd, h⟩
    · exact hI.gets_none p w n1 h hgp hn
    · subst h
      subst hpd
      exact hI.gets_none p u n1 hd hgp hn

theorem ensureLinks_cached (env : Env) (st : State) (d : Nat) (node : Node) (u : UnixfsDag)
    (m : List (String × Nat)) (hd : st.dags[d]? = some u) (hm : u.links = some m) :
    ensureLinks env st d node = (.ok m, st) := by
  simp only [ensureLinks, hd, hm]

theorem ensureLinks_error (env : Env) (st : State) (d : Nat) (node : Node) (u : UnixfsDag)
    (e : Error) (hd : st.dags[d]? = some u) (hm : u.links = none)
    (hl : env.Links node = .error e) :
    ensureLinks env st d node = (.err e, st) := by
  simp only [ensureLinks, hd, hm, loadLinks, hl]

theorem ensureLinks_loaded (env : Env) (st : State) (d : Nat) (node : Node) (u : UnixfsDag)
    (ls : List Link) (hd : st.dags[d]? = some u) (hm : u.links = none)
    (hl : env.Links node = .ok ls) :
    ensureLinks env st d node
      = (.ok (loadLinksLoop ls st []).2,
         { (loadLinksLoop ls st []).1 with
           dags := (loadLinksLoop ls st []).1.dags.set d
             { u with links := some (loadLinksLoop ls st []).2 } }) := by
  simp only [ensureLinks, hd, hm, loadLinks, hl]

/-- Lines 79-84 on a cursor of a store that satisfies the invariant, `node` being
the node of the cursor: the call fails exactly when the extraction fails, and
otherwise yields a map that binds each link name to a cursor for the last link
of that name. -/
theorem ensureLinks_spec (env : Env) (st : State) (d : Nat) (u : UnixfsDag) (node : Node)
    (hI : Inv env st) (hd : st.dags[d]? = some u) (hg : env.Get u.cid = .ok node) :
    (∀ e, env.Links node = .error e → (ensureLinks env st d node).1 = .err e) ∧
      (∀ ls, env.Links node = .ok ls →
        ∃ m, (ensureLinks env st d node).1 = .ok m ∧
          ∀ name, LinkRel (ensureLinks env st d node).2.dags (mapGet m name) (lastLink ls name)) ∧
      Inv env (ensureLinks env st d node).2 ∧ Extends st (ensureLinks env st d node).2 := by
  cases hm : u.links with
  | some m =>
    rw [ensureLinks_cached env st d node u m hd hm]
    obtain ⟨n1, ls1, g1, g2, g3⟩ := hI.links_ok d u m hd hm
    rw [hg] at g1
    cases g1
    refine ⟨?_, ?_, hI, Extends.refl st⟩
    · intro e he
      rw [g2] at he
      cases he
    · intro ls hls
      rw [g2] at hls
      cases hls
      exact ⟨m, rfl, g3⟩
  | none =>
    cases hl : env.Links node with
    | error e =>
      rw [ensureLinks_error env st d node u e hd hm hl]
      refine ⟨?_, ?_, hI, Extends.refl st⟩
      · intro e1 he1
        cases he1
        rfl
      · intro ls hls
        cases hls
    | ok ls =>
      rw [ensureLinks_loaded env st d node u ls hd hm hl]
      obtain ⟨s1, s2, s3⟩ := loadLinksLoop_state ls st []
      obtain ⟨hI1, hext1⟩ := inv_alloc env st (loadLinksLoop ls st []).1
        (ls.map (fun l => { cid := l.cid, node := none, links := none }))
        (by
          intro w hw
          obtain ⟨l, _, rfl⟩ := List.mem_map.mp hw
          exact ⟨rfl, rfl⟩) s1 s3 hI
      have hd1 : (loadLinksLoop ls st []).1.dags[d]? = some u := by
        obtain ⟨u1, hu1, _⟩ := hext1 d u hd
        rw [s1, List.getElem?_append_left (lt_of_getElem?_eq_some hd)]
        exact hd
      have hrel : ∀ name, LinkRel (loadLinksLoop ls st []).1.dags
          (mapGet (loadLinksLoop ls st []).2 name) (lastLink ls name) := by
        intro name
        obtain ⟨k1, k2⟩ := loadLinksLoop_map ls st [] name
        refine ⟨fun h => (k1 h).trans rfl, ?_⟩
        intro c hc
        obtain ⟨q, hq1, _, hq3⟩ := k2 c hc
        exact ⟨q, _, hq1, hq3, rfl⟩
      obtain ⟨hI2, hext2⟩ := inv_set_links env (loadLinksLoop ls st []).1
        { (loadLinksLoop ls st []).1 with
           dags := (loadLinksLoop ls st []).1.dags.set d
             { u with links := some (loadLinksLoop ls st []).2 } }
        d u (loadLinksLoop ls st []).2 node ls hI1 hd1 hg hl hrel rfl rfl
      refine ⟨?_, ?_, hI2, Extends.trans hext1 hext2⟩
      · intro e he
        cases he
      · intro ls1 hls1
        cases hls1
        exact ⟨_, rfl, fun name => LinkRel.mono hext2 (hrel name)⟩

/-- The loop of `getNode` on a cursor of a store that satisfies the invariant
returns what the cache-free resolution returns for the identifier of the cursor,
and keeps the invariant. -/
theorem getNodeLoop_spec (env : Env) (all : List String) (names : List String) :
    ∀ (st : State) (d : Nat) (u : UnixfsDag), Inv env st → st.dags[d]? = some u →
      (getNodeLoop env all names st d).1 = resolveSpec env all u.cid names ∧
        Inv env (getNodeLoop env all names st d).2 ∧
        Extends st (getNodeLoop env all names st d).2 := by
  induction names with
  | nil =>
    intro st d u hI hd
    simp only [getNodeLoop, resolveSpec]
    exact getNodeTail_spec env st d u hI hd
  | cons name rest ih =>
    intro st d u hI hd
    obtain ⟨t1, t2, t3⟩ := getNodeTail_spec env st d u hI hd
    rcases hr : getNodeTail env st d with ⟨o1, st1⟩
    rw [hr] at t1 t2 t3
    simp only at t1 t2 t3
    simp only [getNodeLoop, hr, resolveSpec]
    cases hg : env.Get u.cid with
    | error e =>
      rw [hg] at t1
      simp only [Outcome.ofExcept] at t1
      subst t1
      exact ⟨rfl, t2, t3⟩
    | ok n =>
      rw [hg] at t1
      simp only [Outcome.ofExcept] at t1
      subst t1
      simp only
      obtain ⟨u1, hd1, hc1⟩ := t3 d u hd
      have hg1 : env.Get u1.cid = .ok n := by rw [hc1]; exact hg
      obtain ⟨e1, e2, e3, e4⟩ := ensureLinks_spec env st1 d u1 n t2 hd1 hg1
      rcases hr2 : ensureLinks env st1 d n with ⟨o2, st2⟩
      rw [hr2] at e1 e2 e3 e4
      simp only at e1 e2 e3 e4
      cases hl : env.Links n with
      | error e =>
        have := e1 e hl
        subst this
        exact ⟨rfl, e3, Extends.trans t3 e4⟩
      | ok ls =>
        obtain ⟨m, hm1, hm2⟩ := e2 ls hl
        subst hm1
        simp only
        cases hk : lastLink ls name with
        | none =>
          rw [(hm2 name).1 hk]
          exact ⟨rfl, e3, Extends.trans t3 e4⟩
        | some c =>
          obtain ⟨q, w, hq1, hq2, hq3⟩ := (hm2 name).2 c hk
          rw [hq1]
          simp only
          obtain ⟨i1, i2, i3⟩ := ih st2 q w e3 hq2
          rw [hq3] at i1
          exact ⟨i1, i2, Extends.trans t3 (Extends.trans e4 i3)⟩

/-- A `getNode` call keeps the invariant, whatever cursor it is made on. -/
theorem getNode_inv (env : Env) (st : State) (d : Nat) (names : List String)
    (hI : Inv env st) : Inv env (getNode env st d names).2 := by
  cases hd : st.dags[d]? with
  | some u => exact (getNodeLoop_spec env names names st d u hI hd).2.1
  | none =>
    have h : getNode env st d names = (.panic "nil pointer dereference", st) := by
      unfold getNode
      cases names with
      | nil => simp only [getNodeLoop, getNodeTail, hd]
      | cons name rest => simp only [getNodeLoop, getNodeTail, hd]
    rw [h]
    exact hI

/-- Every state reached from a new cursor by `getNode` calls satisfies the
invariant. -/
theorem runCalls_inv (env : Env) (calls : List (Nat × List String)) :
    ∀ st, Inv env st → Inv env (runCalls env st calls) := by
  induction calls with
  | nil => intro st hI; exact hI
  | cons call calls ih =>
    intro st hI
    obtain ⟨d, names⟩ := call
    simp only [runCalls]
    exact ih _ (getNode_inv env st d names hI)

/-! ## Path resolution -/

theorem resolveSpec_ok_iff (env : Env) (all names : List String) :
    ∀ (c : Cid) (n : Node), resolveSpec env all c names = .ok n ↔
      ∃ c1, follow env c names = some c1 ∧ env.Get c1 = .ok n := by
  induction names with
  | nil =>
    intro c n
    simp only [resolveSpec, follow, Option.some.injEq, exists_eq_left']
    cases env.Get c <;> simp [Outcome.ofExcept]
  | cons name rest ih =>
    intro c n
    simp only [resolveSpec, follow]
    cases hg : env.Get c with
    | error e => simp
    | ok n1 =>
      dsimp only
      cases hl : env.Links n1 with
      | error e => simp
      | ok ls =>
        dsimp only
        cases hk : lastLink ls name with
        | none => simp
        | some c1 => exact ih c1 n

theorem resolveSpec_err_iff (env : Env) (all names : List String) :
    ∀ c : Cid, (∃ e, resolveSpec env all c names = .err e) ↔ walkFails env c names = true := by
  induction names with
  | nil =>
    intro c
    simp only [resolveSpec, walkFails]
    cases env.Get c <;> simp [Outcome.ofExcept]
  | cons name rest ih =>
    intro c
    simp only [resolveSpec, walkFails]
    cases hg : env.Get c with
    | error e => simp
    | ok n1 =>
      dsimp only
      cases hl : env.Links n1 with
      | error e => simp
      | ok ls =>
        dsimp only
        cases hk : lastLink ls name with
        | none => simp
        | some c1 => exact ih c1

theorem resolveSpec_missing (env : Env) (all names : List String) :
    ∀ (c : Cid) (i : Nat) (seg : Nat × String), missingSegment env c names i = some seg →
      resolveSpec env all c names = .err ("no link named " ++ String.intercalate "/" all) := by
  induction names with
  | nil =>
    intro c i seg h
    simp [missingSegment] at h
  | cons name rest ih =>
    intro c i seg h
    simp only [missingSegment] at h
    simp only [resolveSpec]
    cases hg : env.Get c with
    | error e => simp [hg] at h
    | ok n1 =>
      simp only [hg] at h
      cases hl : env.Links n1 with
      | error e => simp [hl] at h
      | ok ls =>
        simp only [hl] at h
        cases hk : lastLink ls name with
        | none => simp only [hl, hk]
        | some c1 =>
          simp only [hk] at h
          simp only [hl, hk]
          exact ih c1 (i + 1) seg h

theorem fresh_root (c : Cid) :
    (State.fresh c).dags[0]? = some { cid := c, node := none, links := none } := rfl

/-- C2: on a cursor with empty caches `getNode(names...)` returns what the
cache-free resolution of `names` from the identifier of the cursor returns; for no
names that is the node fetched for the identifier itself; it returns a node
exactly when the walk along the links named by the segments reaches a final
identifier whose node can be fetched, and that node is the result; it returns an
error exactly when a block on the way cannot be fetched, the extraction fails
with a segment left, or a segment is not a link name of the current node. -/
theorem getNode_resolves (env : Env) (c : Cid) (names : List String) :
    (getNode env (State.fresh c) 0 names).1 = resolveSpec env names c names ∧
      (getNode env (State.fresh c) 0 []).1 = Outcome.ofExcept (env.Get c) ∧
      (∀ n, (getNode env (State.fresh c) 0 names).1 = .ok n ↔
        ∃ c1, follow env c names = some c1 ∧ env.Get c1 = .ok n) ∧
      ((∃ e, (getNode env (State.fresh c) 0 names).1 = .err e) ↔
        walkFails env c names = true) := by
  have h := (getNodeLoop_spec env names names (State.fresh c) 0 _ (inv_fresh env c)
    (fresh_root c)).1
  have h0 := (getNodeLoop_spec env [] [] (State.fresh c) 0 _ (inv_fresh env c)
    (fresh_root c)).1
  refine ⟨h, h0, ?_, ?_⟩
  · intro n
    unfold getNode
    rw [h]
    exact resolveSpec_ok_iff env names names c n
  · unfold getNode
    rw [h]
    exact resolveSpec_err_iff env names names c

/-- C6, as amended: in every state reached from a new cursor by `getNode` calls,
`Get` has been called at most once for each cursor whose block can be fetched. -/
theorem get_at_most_once (env : Env) (c : Cid) (calls : List (Nat × List String))
    (p : Nat) (u : UnixfsDag) (n : Node)
    (hp : (runCalls env (State.fresh c) calls).dags[p]? = some u)
    (hg : env.Get u.cid = .ok n) :
    (runCalls env (State.fresh c) calls).gets.count p ≤ 1 :=
  (runCalls_inv env calls (State.fresh c) (inv_fresh env c)).gets_once p u n hp hg

/-- C7: after any sequence of `getNode` calls, a call on any cursor returns
what it returns on a new cursor with the same identifier, and a second call with
the same arguments returns what the first returned. -/
theorem getNode_cache_invisible (env : Env) (c : Cid) (calls : List (Nat × List String))
    (p : Nat) (u : UnixfsDag) (names : List String)
    (hp : (runCalls env (State.fresh c) calls).dags[p]? = some u) :
    (getNode env (runCalls env (State.fresh c) calls) p names).1
        = (getNode env (State.fresh u.cid) 0 names).1 ∧
      (getNode env (getNode env (runCalls env (State.fresh c) calls) p names).2 p names).1
        = (getNode env (runCalls env (State.fresh c) calls) p names).1 := by
  have hI := runCalls_inv env calls (State.fresh c) (inv_fresh env c)
  obtain ⟨h1, h2, h3⟩ := getNodeLoop_spec env names names _ p u hI hp
  have h0 := (getNodeLoop_spec env names names (State.fresh u.cid) 0 _ (inv_fresh env u.cid)
    (fresh_root u.cid)).1
  obtain ⟨u1, hu1, hc1⟩ := h3 p u hp
  have h4 := (getNodeLoop_spec env names names _ p u1 h2 hu1).1
  refine ⟨?_, ?_⟩
  · unfold getNode
    rw [h1, h0]
  · unfold getNode
    rw [h4, h1, hc1]

/-- C8, as amended: when some segment is not a link name of the directory the
segments before it lead to, `getNode` fails with the error `no link named`
followed by all the requested segments joined by `/`, the same error whichever
segment is the missing one. -/
theorem getNode_missing_link (env : Env) (c : Cid) (calls : List (Nat × List String))
    (p : Nat) (u : UnixfsDag) (names : List String) (seg : Nat × String)
    (hp : (runCalls env (State.fresh c) calls).dags[p]? = some u)
    (hseg : missingSegment env u.cid names 0 = some seg) :
    (getNode env (runCalls env (State.fresh c) calls) p names).1
      = .err ("no link named " ++ String.intercalate "/" names) := by
  have hI := runCalls_inv env calls (State.fresh c) (inv_fresh env c)
  have h1 := (getNodeLoop_spec env names names _ p u hI hp).1
  unfold getNode
  rw [h1]
  exact resolveSpec_missing env names names u.cid 0 seg hseg

/-- Witness of `get_at_most_once`: three calls on the root of `deepEnv`. -/
theorem get_at_most_once_witness :
    (runCalls deepEnv (State.fresh 0) [(0, ["a"]), (0, ["a"]), (0, [])]).dags[0]?
        = some { cid := 0, node := some (nodeOf 0), links := some [("a", 1)] } ∧
      deepEnv.Get 0 = .ok (nodeOf 0) ∧
      (runCalls deepEnv (State.fresh 0) [(0, ["a"]), (0, ["a"]), (0, [])]).gets.count 0 ≤ 1 :=
  ⟨by decide, rfl,
    get_at_most_once deepEnv 0 [(0, ["a"]), (0, ["a"]), (0, [])] 0
      { cid := 0, node := some (nodeOf 0), links := some [("a", 1)] } (nodeOf 0)
      (by decide) rfl⟩

/-- C6, counterexample: the block of identifier 7 is absent; two `getNode()` calls
on a cursor for 7 both fail and call `Get` twice for that cursor. -/
theorem get_twice_when_fetch_fails :
    (getNode danglingEnv (State.fresh 7) 0 []).1 = .err "block not found" ∧
      (runCalls danglingEnv (State.fresh 7) [(0, []), (0, [])]).gets = [0, 0] ∧
      ¬ (runCalls danglingEnv (State.fresh 7) [(0, []), (0, [])]).gets.count 0 ≤ 1 := by
  decide

/-- Witness of `getNode_cache_invisible`: after two calls on the root of
`deepEnv`, the cursor of `a` has both caches filled. -/
theorem getNode_cache_invisible_witness :
    (runCalls deepEnv (State.fresh 0) [(0, ["a", "b"]), (0, ["a"])]).dags[1]?
        = some { cid := 1, node := some (nodeOf 1), links := some [("b", 2)] } ∧
      ((getNode deepEnv (runCalls deepEnv (State.fresh 0) [(0, ["a", "b"]), (0, ["a"])])
          1 ["b", "c"]).1
        = (getNode deepEnv (State.fresh 1) 0 ["b", "c"]).1 ∧
      (getNode deepEnv
          (getNode deepEnv (runCalls deepEnv (State.fresh 0) [(0, ["a", "b"]), (0, ["a"])])
            1 ["b", "c"]).2 1 ["b", "c"]).1
        = (getNode deepEnv (runCalls deepEnv (State.fresh 0) [(0, ["a", "b"]), (0, ["a"])])
            1 ["b", "c"]).1) :=
  ⟨by decide,
    getNode_cache_invisible deepEnv 0 [(0, ["a", "b"]), (0, ["a"])] 1
      { cid := 1, node := some (nodeOf 1), links := some [("b", 2)] } ["b", "c"] (by decide)⟩

/-- Witness of `getNode_missing_link`: in `smallEnv` the directory `a` has no
link `b`. -/
theorem getNode_missing_link_witness :
    (runCalls smallEnv (State.fresh 0) [(0, ["a"])]).dags[0]?
        = some { cid := 0, node := some (nodeOf 0), links := some [("a", 1)] } ∧
      missingSegment smallEnv 0 ["a", "b"] 0 = some (1, "b") ∧
      (getNode smallEnv (runCalls smallEnv (State.fresh 0) [(0, ["a"])]) 0 ["a", "b"]).1
        = .err ("no link named " ++ String.intercalate "/" ["a", "b"]) :=
  ⟨by decide, by decide,
    getNode_missing_link smallEnv 0 [(0, ["a"])] 0
      { cid := 0, node := some (nodeOf 0), links := some [("a", 1)] } ["a", "b"] (1, "b")
      (by decide) (by decide)⟩

/-- C8, counterexample: the calls `getNode("a", "b")` on the root of `smallEnv`,
where `b` is the missing segment, and on the cursor of the empty directory 1,
where `a` is, fail with the same error; so no reading of the error tells the
segment that failed. -/
theorem getNode_error_hides_segment :
    (getNode smallEnv (State.fresh 0) 0 ["a", "b"]).1 = .err "no link named a/b" ∧
      missingSegment smallEnv 0 ["a", "b"] 0 = some (1, "b") ∧
      (getNode smallEnv (State.fresh 1) 0 ["a", "b"]).1 = .err "no link named a/b" ∧
      missingSegment smallEnv 1 ["a", "b"] 0 = some (0, "a") ∧
      ¬ ∃ f : Error → Nat × String, ∀ (c : Cid) (names : List String) (seg : Nat × String),
          missingSegment smallEnv c names 0 = some seg →
          ∃ e, (getNode smallEnv (State.fresh c) 0 names).1 = .err e ∧ f e = seg := by
  refine ⟨by decide, by decide, by decide, by decide, ?_⟩
  rintro ⟨f, hf⟩
  obtain ⟨e0, h0, g0⟩ := hf 0 ["a", "b"] (1, "b") (by decide)
  obtain ⟨e1, h1, g1⟩ := hf 1 ["a", "b"] (0, "a") (by decide)
  have k0 : (getNode smallEnv (State.fresh 0) 0 ["a", "b"]).1 = .err "no link named a/b" := by
    decide
  have k1 : (getNode smallEnv (State.fresh 1) 0 ["a", "b"]).1 = .err "no link named a/b" := by
    decide
  rw [k0] at h0
  rw [k1] at h1
  cases h0
  cases h1
  rw [g0] at g1
  cases g1

/-! ## Opening an archive -/

/-- C9: when the archive opens and declares `roots`, `newUnixfsDagFromCar`
returns the error `expected 1 root, got N` and leaves the state as it was (no
cursor, no call of `Get`) if the number `N` of roots is not 1, and for a single
root returns a new cursor with that identifier and empty caches, again without a
call of `Get`. -/
theorem newUnixfsDagFromCar_roots (OpenReadOnly : String → Except Error Blockstore)
    (st : State) (file : String) (bs : Blockstore) (roots : List Cid)
    (ho : OpenReadOnly file = .ok bs) (hr : bs.Roots = .ok roots) :
    (roots.length ≠ 1 →
        newUnixfsDagFromCar OpenReadOnly st file
          = (.err ("expected 1 root, got " ++ toString roots.length), st)) ∧
      ∀ r, roots = [r] →
        (newUnixfsDagFromCar OpenReadOnly st file).1 = .ok st.dags.length ∧
        (newUnixfsDagFromCar OpenReadOnly st file).2.dags[st.dags.length]?
          = some { cid := r, node := none, links := none } ∧
        (newUnixfsDagFromCar OpenReadOnly st file).2.gets = st.gets ∧
        (newUnixfsDagFromCar OpenReadOnly st file).2
          = { st with dags := st.dags ++ [{ cid := r, node := none, links := none }] } := by
  refine ⟨?_, ?_⟩
  · intro hlen
    simp only [newUnixfsDagFromCar, ho, hr, hlen, ne_eq, not_false_eq_true, if_true]
  · intro r hroots
    subst hroots
    simp [newUnixfsDagFromCar, ho, hr]

/-- Witness of `newUnixfsDagFromCar_roots`: archives with two roots, with no root
and with one root. -/
theorem newUnixfsDagFromCar_roots_witness :
    newUnixfsDagFromCar (fun _ => .ok { Roots := .ok [3, 4] }) (State.fresh 9) "two.car"
        = (.err "expected 1 root, got 2", State.fresh 9) ∧
      newUnixfsDagFromCar (fun _ => .ok { Roots := .ok [] }) (State.fresh 9) "none.car"
        = (.err "expected 1 root, got 0", State.fresh 9) ∧
      newUnixfsDagFromCar (fun _ => .ok { Roots := .ok [5] }) (State.fresh 9) "one.car"
        = (.ok 1, { dags := [{ cid := 9, node := none, links := none },
                            { cid := 5, node := none, links := none }],
                    arrays := [], gets := [] }) :=
  ⟨(newUnixfsDagFromCar_roots (fun _ => .ok { Roots := .ok [3, 4] }) (State.fresh 9) "two.car"
      { Roots := .ok [3, 4] } [3, 4] rfl rfl).1 (by decide),
    (newUnixfsDagFromCar_roots (fun _ => .ok { Roots := .ok [] }) (State.fresh 9) "none.car"
      { Roots := .ok [] } [] rfl rfl).1 (by decide),
    by decide⟩

/-! ## The recursive lister -/

theorem linksOrNone_error (env : Env) (st : State) (node : Node) (e : Error)
    (h : env.Links node = .error e) : linksOrNone env st node = ([], st) := by
  simp only [linksOrNone, loadLinks, h]

theorem linksOrNone_leavesAsEmptyDirs (env : Env) (st : State) (node : Node) :
    linksOrNone env.leavesAsEmptyDirs st node = linksOrNone env st node := by
  cases h : env.Links node with
  | error e =>
    have h1 : env.leavesAsEmptyDirs.Links node = .ok [] := by
      simp only [Env.leavesAsEmptyDirs, h]
    simp only [linksOrNone, loadLinks, h, h1, loadLinksLoop]
  | ok ls =>
    have h1 : env.leavesAsEmptyDirs.Links node = .ok ls := by
      simp only [Env.leavesAsEmptyDirs, h]
    simp only [linksOrNone, loadLinks, h, h1]

theorem descend_leavesAsEmptyDirs (env : Env)
    (self : State → List Slice → Node → Slice → Outcome Unit × State × List Slice)
    (links : List (String × Nat)) (path : Slice) :
    descend env.leavesAsEmptyDirs self links path = descend env self links path := rfl

theorem recursive_leavesAsEmptyDirs (env : Env) (fuel : Nat) :
    recursive env.leavesAsEmptyDirs fuel = recursive env fuel := by
  induction fuel with
  | zero => rfl
  | succ fuel ih =>
    funext st result node path
    simp only [recursive, linksOrNone_leavesAsEmptyDirs, ih, descend_leavesAsEmptyDirs]

theorem mustGetNode_ne_err (env : Env) (st : State) (d : Nat) (names : List String)
    (e : Error) : (mustGetNode env st d names).1 ≠ .err e := by
  unfold mustGetNode
  rcases h : getNode env st d names with ⟨o, st1⟩
  cases o <;> simp

theorem forNames_ne_err
    (body : State → List Slice → String → Outcome Unit × State × List Slice) (e : Error)
    (hbody : ∀ st result name, (body st result name).1 ≠ .err e) (names : List String) :
    ∀ st result, (forNames body names st result).1 ≠ .err e := by
  induction names with
  | nil => intro st result; simp [forNames]
  | cons name names ih =>
    intro st result
    have hb := hbody st result name
    simp only [forNames]
    rcases h : body st result name with ⟨o, st1, result1⟩
    rw [h] at hb
    cases o with
    | ok a => exact ih st1 result1
    | err e1 => exact hb
    | panic e1 => simp
    | outOfFuel => simp

theorem descend_ne_err (env : Env)
    (self : State → List Slice → Node → Slice → Outcome Unit × State × List Slice)
    (e : Error) (hself : ∀ st result node path, (self st result node path).1 ≠ .err e)
    (links : List (String × Nat)) (path : Slice) (st : State) (result : List Slice)
    (name : String) : (descend env self links path st result name).1 ≠ .err e := by
  unfold descend
  cases mapGet links name with
  | none => simp
  | some child =>
    have hm := mustGetNode_ne_err env st child [] e
    rcases h : mustGetNode env st child [] with ⟨o, st1⟩
    rw [h] at hm
    cases o with
    | ok n =>
      simp only [h]
      exact hself _ _ _ _
    | err e1 =>
      simp only [h]
      simpa using hm
    | panic e1 => simp [h]
    | outOfFuel => simp [h]

/-- The closure `recursive` never returns a non-nil error. -/
theorem recursive_ne_err (env : Env) (e : Error) (fuel : Nat) :
    ∀ st result node path, (recursive env fuel st result node path).1 ≠ .err e := by
  induction fuel with
  | zero => intro st result node path; simp [recursive]
  | succ fuel ih =>
    intro st result node path
    simp only [recursive]
    exact forNames_ne_err _ e (descend_ne_err env _ e ih _ _) _ _ _

/-- The only non-nil error `listChildren` returns is the one `getNode` returns
for the start path. -/
theorem listChildren_err_iff (env : Env) (fuel : Nat) (st : State) (d : Nat) (names : Slice)
    (e : Error) :
    (listChildren env fuel st d names).1 = .err e ↔
      (getNode env st d (st.read names)).1 = .err e := by
  unfold listChildren
  rcases h : getNode env st d (st.read names) with ⟨o, st1⟩
  cases o with
  | ok node =>
    simp only
    have hr := recursive_ne_err env e fuel st1 [] node names
    rcases h2 : recursive env fuel st1 [] node names with ⟨o2, st2, result⟩
    rw [h2] at hr
    cases o2 with
    | ok a => simp
    | err e1 =>
      have hne : e1 ≠ e := fun h3 => hr (by rw [h3])
      simp [hne]
    | panic e1 => simp
    | outOfFuel => simp
  | err e1 => simp
  | panic e1 => simp
  | outOfFuel => simp

theorem recursive_leaf (env : Env) (node : Node) (e : Error) (h : env.Links node = .error e)
    (fuel : Nat) (st : State) (result : List Slice) (path : Slice) :
    recursive env (fuel + 1) st result node path = (.ok (), st, result ++ [path]) := by
  simp only [recursive, linksOrNone_error env st node e h, List.map_nil, sortStrings,
    List.insertionSort, forNames]

/-- On slice headers: when the extraction of the links of `node` fails with any
error `e`, the closure called on `node` appends the header `path` to `result`,
adds nothing else, changes nothing in the state and returns nil; the loop of lines
128-133 that reaches `node` as the child `name` goes on with the remaining
siblings `rest`; the whole walk is the walk in the graph where every such node is
a directory without links; the closure never returns a non-nil error; and
`listChildren` started on `node` returns the empty list and a nil error.  What the
recorded headers read once the walk is over is another matter: a later `append`
may overwrite the array a header points to. -/
theorem recursive_ignores_extraction_error (env : Env) (fuel : Nat) (st : State)
    (result : List Slice) (node : Node) (path : Slice) (e : Error)
    (h : env.Links node = .error e) :
    recursive env (fuel + 1) st result node path = (.ok (), st, result ++ [path]) ∧
      (∀ links name rest st0 child,
        mapGet links name = some child → mustGetNode env st0 child [] = (.ok node, st) →
        forNames (descend env (recursive env (fuel + 1)) links path) (name :: rest) st0 result
          = forNames (descend env (recursive env (fuel + 1)) links path) rest
              (append env st path name).2 (result ++ [(append env st path name).1])) ∧
      (∀ fuel1 st1 result1 node1 path1,
        recursive env fuel1 st1 result1 node1 path1
          = recursive env.leavesAsEmptyDirs fuel1 st1 result1 node1 path1) ∧
      (∀ fuel1 st1 result1 node1 path1 e1,
        (recursive env fuel1 st1 result1 node1 path1).1 ≠ .err e1) ∧
      ∀ st0 d names, getNode env st0 d (st0.read names) = (.ok node, st) →
        listChildren env (fuel + 1) st0 d names = (.ok [], st) := by
  refine ⟨recursive_leaf env node e h fuel st result path, ?_, ?_, ?_, ?_⟩
  · intro links name rest st0 child hk hm
    simp only [forNames, descend, hk, hm, recursive_leaf env node e h]
  · intro fuel1 st1 result1 node1 path1
    rw [recursive_leavesAsEmptyDirs]
  · intro fuel1 st1 result1 node1 path1 e1
    exact recursive_ne_err env e1 fuel1 st1 result1 node1 path1
  · intro st0 d names hstart
    simp only [listChildren, hstart, recursive_leaf env node e h, List.nil_append,
      List.drop_one, List.tail_cons]

/-- Witness of `recursive_ignores_extraction_error`: in `filesEnv` the closure
called on the file `f`, and the listing of the root, where the walk goes on to
the sibling `g` after the file `f`. -/
theorem recursive_ignores_extraction_error_witness :
    filesEnv.Links (nodeOf 1) = .error "not a directory" ∧
      recursive filesEnv 1 (State.fresh 0) [Slice.nil] (nodeOf 1) { arr := some 0, len := 1 }
        = (.ok (), State.fresh 0, [Slice.nil] ++ [{ arr := some 0, len := 1 }]) ∧
      listChildrenPaths filesEnv 2 (State.fresh 0) 0 Slice.nil = .ok [["f"], ["g"]] :=
  ⟨rfl,
    (recursive_ignores_extraction_error filesEnv 0 (State.fresh 0) [Slice.nil] (nodeOf 1)
      { arr := some 0, len := 1 } "not a directory" rfl).1,
    by decide⟩

/-! ## Inputs on which the lister departs from its specification -/

/-- C1, failing input: in `deepEnv` the directory `a/b/c` has the children `x` and
`y`.  `listChildren()` on the root returns the path `a/b/c/y` twice and `a/b/c/x`
not at all, while the pre-order walk lists `a/b/c/x` then `a/b/c/y`: the slice
`a/b/c` has length 3 and capacity 4, so both `append(path, name)` write into the
same array. -/
theorem listChildren_deep_not_preorder :
    (getNode deepEnv (State.fresh 0) 0 []).1 = .ok (nodeOf 0) ∧
      listChildrenPaths deepEnv 5 (State.fresh 0) 0 Slice.nil
        = .ok [["a"], ["a", "b"], ["a", "b", "c"], ["a", "b", "c", "y"], ["a", "b", "c", "y"]] ∧
      descendantsSpec deepEnv 5 (nodeOf 0) []
        = [["a"], ["a", "b"], ["a", "b", "c"], ["a", "b", "c", "x"], ["a", "b", "c", "y"]] ∧
      listChildrenPaths deepEnv 5 (State.fresh 0) 0 Slice.nil
        ≠ .ok (descendantsSpec deepEnv 5 (nodeOf 0) []) := by
  decide

/-- C3, failing input: in `unsortedEnv` the directory `p/q/r` returns its links as
`b` then `a`.  Both entries of its children end in `b`: they are not in strictly
ascending order and no entry ends in `a`. -/
theorem listChildren_deep_siblings_not_ascending :
    listChildrenPaths unsortedEnv 5 (State.fresh 0) 0 Slice.nil
        = .ok [["p"], ["p", "q"], ["p", "q", "r"], ["p", "q", "r", "b"], ["p", "q", "r", "b"]] ∧
      stringLess "b" "b" = false ∧
      sortStrings ["b", "a"] = ["a", "b"] := by
  decide

/-- C5, failing input: in `deepEnv` the directory reached by the three segments
`a/b/c` has two children; the listing of the root has the right length, 5, and
no empty path, but it holds the path `a/b/c/y` twice. -/
theorem listChildren_deep_has_duplicate :
    ∃ r, listChildrenPaths deepEnv 5 (State.fresh 0) 0 Slice.nil = .ok r ∧
      r.length = 5 ∧ [] ∉ r ∧ ¬ r.Nodup ∧ r.count ["a", "b", "c", "y"] = 2 :=
  ⟨[["a"], ["a", "b"], ["a", "b", "c"], ["a", "b", "c", "y"], ["a", "b", "c", "y"]],
    by decide, by decide, by decide, by decide, by decide⟩

/-- C10, failing input: in `danglingEnv` the root resolves and its link `a` names
an absent block; `listChildren()` does not return an error, it panics in
`mustGetNode`. -/
theorem listChildren_panics_on_missing_block :
    (getNode danglingEnv (State.fresh 0) 0 []).1 = .ok (nodeOf 0) ∧
      (getNode danglingEnv (State.fresh 0) 0 ["a"]).1 = .err "block not found" ∧
      (listChildren danglingEnv 5 (State.fresh 0) 0 Slice.nil).1 = .panic "block not found" := by
  decide

/-! ## Frame of `getNode` -/

theorem frame_refl (st : State) : Frame st st :=
  ⟨rfl, fun _ u h => ⟨u, h, rfl, fun _ hn => hn, fun _ hm => hm⟩⟩

theorem frame_trans {a b c : State} (h1 : Frame a b) (h2 : Frame b c) : Frame a c := by
  refine ⟨h2.1.trans h1.1, ?_⟩
  intro p u hp
  obtain ⟨u1, hu1, hc1, hn1, hm1⟩ := h1.2 p u hp
  obtain ⟨u2, hu2, hc2, hn2, hm2⟩ := h2.2 p u1 hu1
  exact ⟨u2, hu2, hc2.trans hc1, fun n hn => hn2 n (hn1 n hn), fun m hm => hm2 m (hm1 m hm)⟩

/-- Overwriting cursor `d` by a cursor that keeps its identifier and whatever was
cached is within the frame. -/
theorem frame_set (st st1 : State) (d : Nat) (u u1 : UnixfsDag)
    (hd : st.dags[d]? = some u) (hc : u1.cid = u.cid)
    (hn : ∀ n, u.node = some n → u1.node = some n)
    (hm : ∀ m, u.links = some m → u1.links = some m)
    (h1 : st1.dags = st.dags.set d u1) (h2 : st1.arrays = st.arrays) : Frame st st1 := by
  refine ⟨h2, ?_⟩
  intro p w hp
  rw [h1, List.getElem?_set]
  by_cases hdp : d = p
  · subst hdp
    have hlt := lt_of_getElem?_eq_some hd
    rw [hd] at hp
    cases hp
    exact ⟨u1, by simp [hlt], hc, hn, hm⟩
  · exact ⟨w, by simp [hdp, hp], rfl, fun _ h => h, fun _ h => h⟩

/-- Allocating cursors is within the frame. -/
theorem frame_alloc (st st1 : State) (new : List UnixfsDag)
    (h1 : st1.dags = st.dags ++ new) (h2 : st1.arrays = st.arrays) : Frame st st1 := by
  refine ⟨h2, ?_⟩
  intro p w hp
  refine ⟨w, ?_, rfl, fun _ h => h, fun _ h => h⟩
  rw [h1, List.getElem?_append_left (lt_of_getElem?_eq_some hp)]
  exact hp

theorem getNodeTail_nil (env : Env) (st : State) (d : Nat) (hd : st.dags[d]? = none) :
    getNodeTail env st d = (.panic "nil pointer dereference", st) := by
  simp only [getNodeTail, hd]

theorem ensureLinks_nil (env : Env) (st : State) (d : Nat) (node : Node)
    (hd : st.dags[d]? = none) :
    ensureLinks env st d node = (.panic "nil pointer dereference", st) := by
  simp only [ensureLinks, hd]

theorem getNodeTail_frame (env : Env) (st : State) (d : Nat) :
    Frame st (getNodeTail env st d).2 := by
  cases hd : st.dags[d]? with
  | none =>
    rw [getNodeTail_nil env st d hd]
    exact frame_refl st
  | some u =>
    cases hn : u.node with
    | some n =>
      rw [getNodeTail_cached env st d u n hd hn]
      exact frame_refl st
    | none =>
      cases hg : env.Get u.cid with
      | error e =>
        rw [getNodeTail_error env st d u e hd hn hg]
        exact ⟨rfl, fun _ w h => ⟨w, h, rfl, fun _ k => k, fun _ k => k⟩⟩
      | ok n =>
        rw [getNodeTail_fetched env st d u n hd hn hg]
        refine frame_set st _ d u { u with node := some n } hd rfl ?_ (fun _ h => h) rfl rfl
        intro n1 hn1
        rw [hn] at hn1
        cases hn1

theorem ensureLinks_frame (env : Env) (st : State) (d : Nat) (node : Node) :
    Frame st (ensureLinks env st d node).2 := by
  cases hd : st.dags[d]? with
  | none =>
    rw [ensureLinks_nil env st d node hd]
    exact frame_refl st
  | some u =>
    cases hm : u.links with
    | some m =>
      rw [ensureLinks_cached env st d node u m hd hm]
      exact frame_refl st
    | none =>
      cases hl : env.Links node with
      | error e =>
        rw [ensureLinks_error env st d node u e hd hm hl]
        exact frame_refl st
      | ok ls =>
        rw [ensureLinks_loaded env st d node u ls hd hm hl]
        obtain ⟨s1, s2, _⟩ := loadLinksLoop_state ls st []
        have hf1 : Frame st (loadLinksLoop ls st []).1 := frame_alloc st _ _ s1 s2
        have hd1 : (loadLinksLoop ls st []).1.dags[d]? = some u := by
          rw [s1, List.getElem?_append_left (lt_of_getElem?_eq_some hd)]
          exact hd
        refine frame_trans hf1 ?_
        refine frame_set _ _ d u { u with links := some (loadLinksLoop ls st []).2 } hd1 rfl
          (fun _ h => h) ?_ rfl rfl
        intro m1 hm1
        rw [hm] at hm1
        cases hm1

theorem getNodeLoop_frame (env : Env) (all : List String) (names : List String) :
    ∀ (st : State) (d : Nat), Frame st (getNodeLoop env all names st d).2 := by
  induction names with
  | nil =>
    intro st d
    simp only [getNodeLoop]
    exact getNodeTail_frame env st d
  | cons name rest ih =>
    intro st d
    have t := getNodeTail_frame env st d
    rcases hr : getNodeTail env st d with ⟨o1, st1⟩
    rw [hr] at t
    simp only [getNodeLoop, hr]
    cases o1 with
    | ok node =>
      simp only
      have e := ensureLinks_frame env st1 d node
      rcases hr2 : ensureLinks env st1 d node with ⟨o2, st2⟩
      rw [hr2] at e
      cases o2 with
      | ok m =>
        simp only
        cases hk : mapGet m name with
        | none => exact frame_trans t e
        | some child => exact frame_trans t (frame_trans e (ih st2 child))
      | err e1 => exact frame_trans t e
      | panic e1 => exact frame_trans t e
      | outOfFuel => exact frame_trans t e
    | err e1 => exact t
    | panic e1 => exact t
    | outOfFuel => exact t

/-- C11: a call `getNode(names...)` on any cursor of any state, whatever it
returns, leaves every cursor in place with its identifier, leaves every node
cache and every links cache that was populated with the value it had, and does
not touch the slices; so all it changes is to fill caches that were empty (and
to allocate the cursors of a links cache it fills). -/
theorem getNode_frame (env : Env) (st : State) (d : Nat) (names : List String)
    (p : Nat) (u : UnixfsDag) (hp : st.dags[p]? = some u) :
    (∃ u1 : UnixfsDag, (getNode env st d names).2.dags[p]? = some u1 ∧ u1.cid = u.cid ∧
        (∀ n, u.node = some n → u1.node = some n) ∧
        (∀ m, u.links = some m → u1.links = some m)) ∧
      (getNode env st d names).2.arrays = st.arrays :=
  ⟨(getNodeLoop_frame env names names st d).2 p u hp,
    (getNodeLoop_frame env names names st d).1⟩

/-- Witness of `getNode_frame`: the root of `deepEnv` after `getNode("a")`, in a
call that fails (`a` has no link `z`). -/
theorem getNode_frame_witness :
    (runCalls deepEnv (State.fresh 0) [(0, ["a"])]).dags[0]?
        = some { cid := 0, node := some (nodeOf 0), links := some [("a", 1)] } ∧
      ((∃ u1 : UnixfsDag,
          (getNode deepEnv (runCalls deepEnv (State.fresh 0) [(0, ["a"])]) 0 ["a", "z"]).2.dags[0]?
            = some u1 ∧
          u1.cid = 0 ∧
          (∀ n, some (nodeOf 0) = some n → u1.node = some n) ∧
          (∀ m, some [("a", 1)] = some m → u1.links = some m)) ∧
        (getNode deepEnv (runCalls deepEnv (State.fresh 0) [(0, ["a"])]) 0 ["a", "z"]).2.arrays
          = (runCalls deepEnv (State.fresh 0) [(0, ["a"])]).arrays) :=
  ⟨by decide,
    getNode_frame deepEnv (runCalls deepEnv (State.fresh 0) [(0, ["a"])]) 0 ["a", "z"] 0
      { cid := 0, node := some (nodeOf 0), links := some [("a", 1)] } (by decide)⟩

/-! ## Formatting a node -/

/-- The four ways `FormatDagNode` ends: `codec.Set` rejects the codec string
(the panic is the error of `Set`), no encoder is registered for the codec (the
panic is `invalid encoding:` followed by the name of the codec and the error of
the lookup), the registered encoder returns no error (the result is what it
wrote), the registered encoder returns an error (the panic is that error). -/
theorem FormatDagNode_cases (mc : Multicodec) (node : Node) (codecStr : String) :
    (∀ e, mc.Set codecStr = .error e → FormatDagNode mc node codecStr = .panic e) ∧
      (∀ codec e, mc.Set codecStr = .ok codec → mc.LookupEncoder codec = .error e →
        FormatDagNode mc node codecStr
            = .panic ("invalid encoding: " ++ mc.codeString codec ++ " - " ++ e) ∧
          (mc.codeString codec).data
            <:+: ("invalid encoding: " ++ mc.codeString codec ++ " - " ++ e).data) ∧
      (∀ codec encoder output, mc.Set codecStr = .ok codec →
        mc.LookupEncoder codec = .ok encoder → encoder node = (output, none) →
        FormatDagNode mc node codecStr = .ok output) ∧
      ∀ codec encoder output e, mc.Set codecStr = .ok codec →
        mc.LookupEncoder codec = .ok encoder → encoder node = (output, some e) →
        FormatDagNode mc node codecStr = .panic e := by
  refine ⟨?_, ?_, ?_, ?_⟩
  · intro e h
    simp only [FormatDagNode, h]
  · intro codec e h1 h2
    refine ⟨by simp only [FormatDagNode, h1, h2], ?_⟩
    refine ⟨"invalid encoding: ".data, (" - " ++ e).data, ?_⟩
    simp only [String.data_append, List.append_assoc]
  · intro codec encoder output h1 h2 h3
    simp only [FormatDagNode, h1, h2, h3]
  · intro codec encoder output e h1 h2 h3
    simp only [FormatDagNode, h1, h2, h3]

/-! ## Nodes of the listed children -/

/-- C13, failing inputs.  In `deeperEnv` the listing of the root holds the path
`a/b/c/d/e/q/r`, recorded for the node `r` below `p`; `q` is a file, so `getNode`
fails on that path and `MustGetChildren()` panics.  In `deepEnv` the lister
fetches the identifiers 0 to 5, but `MustGetChildrenCids()` returns the identifier
5 twice and 4 not at all. -/
theorem MustGetChildren_deep_wrong_nodes :
    listChildrenPaths deeperEnv 8 (State.fresh 0) 0 Slice.nil
        = .ok [["a"], ["a", "b"], ["a", "b", "c"], ["a", "b", "c", "d"],
            ["a", "b", "c", "d", "e"], ["a", "b", "c", "d", "e", "q"],
            ["a", "b", "c", "d", "e", "q", "r"], ["a", "b", "c", "d", "e", "q"]] ∧
      (getNode deeperEnv (listChildren deeperEnv 8 (State.fresh 0) 0 Slice.nil).2 0
          ["a", "b", "c", "d", "e", "q", "r"]).1 = .err "not a directory" ∧
      (MustGetChildren deeperEnv 8 (State.fresh 0) 0 Slice.nil).1 = .panic "not a directory" ∧
      (listChildren deepEnv 5 (State.fresh 0) 0 Slice.nil).2.gets.filterMap
          (fun p => ((listChildren deepEnv 5 (State.fresh 0) 0 Slice.nil).2.dags[p]?).map
            UnixfsDag.cid)
        = [0, 1, 2, 3, 4, 5] ∧
      (MustGetChildrenCids deepEnv (fun c => toString c) 5 (State.fresh 0) 0 Slice.nil).1
        = .ok ["1", "2", "3", "5", "5"] := by
  decide

/-! ## Termination of the lister -/

theorem getNodeTail_ne_outOfFuel (env : Env) (st : State) (d : Nat) :
    (getNodeTail env st d).1 ≠ .outOfFuel := by
  cases hd : st.dags[d]? with
  | none => simp [getNodeTail_nil env st d hd]
  | some u =>
    cases hn : u.node with
    | some n => simp [getNodeTail_cached env st d u n hd hn]
    | none =>
      cases hg : env.Get u.cid with
      | error e => simp [getNodeTail_error env st d u e hd hn hg]
      | ok n => simp [getNodeTail_fetched env st d u n hd hn hg]

theorem ensureLinks_ne_outOfFuel (env : Env) (st : State) (d : Nat) (node : Node) :
    (ensureLinks env st d node).1 ≠ .outOfFuel := by
  cases hd : st.dags[d]? with
  | none => simp [ensureLinks_nil env st d node hd]
  | some u =>
    cases hm : u.links with
    | some m => simp [ensureLinks_cached env st d node u m hd hm]
    | none =>
      cases hl : env.Links node with
      | error e => simp [ensureLinks_error env st d node u e hd hm hl]
      | ok ls => simp [ensureLinks_loaded env st d node u ls hd hm hl]

/-- The loop of `getNode` is a structural recursion on the segment list: no
recursion bound is involved in its result. -/
theorem getNodeLoop_ne_outOfFuel (env : Env) (all names : List String) :
    ∀ (st : State) (d : Nat), (getNodeLoop env all names st d).1 ≠ .outOfFuel := by
  induction names with
  | nil =>
    intro st d
    simp only [getNodeLoop]
    exact getNodeTail_ne_outOfFuel env st d
  | cons name rest ih =>
    intro st d
    have t := getNodeTail_ne_outOfFuel env st d
    rcases hr : getNodeTail env st d with ⟨o1, st1⟩
    rw [hr] at t
    simp only [getNodeLoop, hr]
    cases o1 with
    | ok node =>
      simp only
      have e := ensureLinks_ne_outOfFuel env st1 d node
      rcases hr2 : ensureLinks env st1 d node with ⟨o2, st2⟩
      rw [hr2] at e
      cases o2 with
      | ok m =>
        simp only
        cases mapGet m name with
        | none => simp
        | some child => exact ih st2 child
      | err e1 => simp
      | panic e1 => simp
      | outOfFuel => exact absurd rfl e
    | err e1 => simp
    | panic e1 => simp
    | outOfFuel => exact absurd rfl t

theorem inv_of_eq (env : Env) (st st1 : State) (h1 : st1.dags = st.dags)
    (h2 : st1.gets = st.gets) (hI : Inv env st) : Inv env st1 ∧ Extends st st1 :=
  inv_alloc env st st1 [] (fun _ hw => absurd hw (List.not_mem_nil _))
    (by rw [h1, List.append_nil]) h2 hI

theorem append_state (env : Env) (st : State) (s : Slice) (x : String) :
    (append env st s x).2.dags = st.dags ∧ (append env st s x).2.gets = st.gets := by
  unfold append
  cases s.arr with
  | none => exact ⟨rfl, rfl⟩
  | some a =>
    by_cases h : s.len < st.cap s
    · simp [h]
    · simp [h]

theorem linksOrNone_ok (env : Env) (st : State) (node : Node) (ls : List Link)
    (hl : env.Links node = .ok ls) :
    linksOrNone env st node = ((loadLinksLoop ls st []).2, (loadLinksLoop ls st []).1) := by
  simp only [linksOrNone, loadLinks, hl]

/-- The cursors `loadLinks` allocates keep the invariant, and its map binds each
link name to a cursor for the last link of that name. -/
theorem loadLinksLoop_inv (env : Env) (ls : List Link) (st : State) (hI : Inv env st) :
    Inv env (loadLinksLoop ls st []).1 ∧ Extends st (loadLinksLoop ls st []).1 ∧
      ∀ name, LinkRel (loadLinksLoop ls st []).1.dags
        (mapGet (loadLinksLoop ls st []).2 name) (lastLink ls name) := by
  obtain ⟨s1, _, s3⟩ := loadLinksLoop_state ls st []
  obtain ⟨hI1, hext1⟩ := inv_alloc env st (loadLinksLoop ls st []).1
    (ls.map (fun l => { cid := l.cid, node := none, links := none }))
    (by
      intro w hw
      obtain ⟨l, _, rfl⟩ := List.mem_map.mp hw
      exact ⟨rfl, rfl⟩) s1 s3 hI
  refine ⟨hI1, hext1, ?_⟩
  intro name
  obtain ⟨k1, k2⟩ := loadLinksLoop_map ls st [] name
  refine ⟨fun h => (k1 h).trans rfl, ?_⟩
  intro c hc
  obtain ⟨q, hq1, _, hq3⟩ := k2 c hc
  exact ⟨q, _, hq1, hq3, rfl⟩

/-- `mustGetNode()` on a cursor of a store that satisfies the invariant returns
the node `Get` returns for its identifier, and panics when `Get` fails. -/
theorem mustGetNode_self (env : Env) (st : State) (d : Nat) (u : UnixfsDag)
    (hI : Inv env st) (hd : st.dags[d]? = some u) :
    (mustGetNode env st d []).1
        = (match env.Get u.cid with
          | .ok n => Outcome.ok n
          | .error e => Outcome.panic e) ∧
      Inv env (mustGetNode env st d []).2 ∧ Extends st (mustGetNode env st d []).2 := by
  obtain ⟨t1, t2, t3⟩ := getNodeTail_spec env st d u hI hd
  have hm : mustGetNode env st d [] =
      (match getNodeTail env st d with
        | (.err e, st1) => (.panic e, st1)
        | r => r) := rfl
  rcases hr : getNodeTail env st d with ⟨o1, st1⟩
  rw [hr] at t1 t2 t3 hm
  simp only at t1 t2 t3
  rw [hm]
  cases hg : env.Get u.cid with
  | error e =>
    rw [hg] at t1
    simp only [Outcome.ofExcept] at t1
    subst t1
    exact ⟨rfl, t2, t3⟩
  | ok n =>
    rw [hg] at t1
    simp only [Outcome.ofExcept] at t1
    subst t1
    exact ⟨rfl, t2, t3⟩

theorem forNames_invariant (P : State → Prop)
    (body : State → List Slice → String → Outcome Unit × State × List Slice)
    (hbody : ∀ st result name, P st →
      (body st result name).1 ≠ .outOfFuel ∧ P (body st result name).2.1)
    (names : List String) :
    ∀ st result, P st →
      (forNames body names st result).1 ≠ .outOfFuel ∧ P (forNames body names st result).2.1 := by
  induction names with
  | nil =>
    intro st result hP
    simp only [forNames]
    exact ⟨by simp, hP⟩
  | cons name names ih =>
    intro st result hP
    have hb := hbody st result name hP
    rcases h : body st result name with ⟨o, st1, r1⟩
    rw [h] at hb
    simp only [forNames, h]
    cases o with
    | ok a => exact ih st1 r1 hb.2
    | err e => exact ⟨by simp, hb.2⟩
    | panic e => exact ⟨by simp, hb.2⟩
    | outOfFuel => exact absurd rfl hb.1

/-- With a height that decreases along the links below `start`, the closure
called with more fuel than the height of its node does not run out of fuel; it
keeps the invariant of the cursor store. -/
theorem recursive_enough_fuel (env : Env) (height : Node → Nat) (start : Node)
    (hacyc : ∀ n n1, Below env start n → IsChild env n n1 → height n1 < height n) :
    ∀ (fuel : Nat) (node : Node) (st : State) (result : List Slice) (path : Slice),
      Below env start node → height node < fuel → Inv env st →
      (recursive env fuel st result node path).1 ≠ .outOfFuel ∧
        Inv env (recursive env fuel st result node path).2.1 ∧
        Extends st (recursive env fuel st result node path).2.1 := by
  intro fuel
  induction fuel with
  | zero =>
    intro node st result path _ hh _
    exact absurd hh (Nat.not_lt_zero _)
  | succ fuel ih =>
    intro node st result path hb hh hI
    cases hl : env.Links node with
    | error e =>
      rw [recursive_leaf env node e hl]
      exact ⟨by simp, hI, Extends.refl st⟩
    | ok ls =>
      obtain ⟨hI1, hE1, hR1⟩ := loadLinksLoop_inv env ls st hI
      simp only [recursive, linksOrNone_ok env st node ls hl]
      have key := forNames_invariant
        (fun s => Inv env s ∧ Extends (loadLinksLoop ls st []).1 s)
        (descend env (recursive env fuel) (loadLinksLoop ls st []).2 path)
        (by
          intro st1 result1 name hP
          obtain ⟨hI2, hE2⟩ := hP
          cases hk : mapGet (loadLinksLoop ls st []).2 name with
          | none =>
            simp only [descend, hk]
            exact ⟨by simp, hI2, hE2⟩
          | some child =>
            cases hlast : lastLink ls name with
            | none =>
              have := (hR1 name).1 hlast
              rw [hk] at this
              cases this
            | some c =>
              obtain ⟨q, u, hq, hu, hc⟩ := (hR1 name).2 c hlast
              rw [hk] at hq
              cases hq
              obtain ⟨u1, hu1, hc1⟩ := hE2 child u hu
              obtain ⟨m1, m2, m3⟩ := mustGetNode_self env st1 child u1 hI2 hu1
              rcases hr : mustGetNode env st1 child [] with ⟨o1, s1⟩
              rw [hr] at m1 m2 m3
              simp only at m1 m2 m3
              rw [hc1, hc] at m1
              cases hg : env.Get c with
              | error e =>
                rw [hg] at m1
                simp only at m1
                subst m1
                simp only [descend, hk, hr]
                exact ⟨by simp, m2, Extends.trans hE2 m3⟩
              | ok n1 =>
                rw [hg] at m1
                simp only at m1
                subst m1
                simp only [descend, hk, hr]
                obtain ⟨a1, a2⟩ := append_state env s1 path name
                obtain ⟨hI3, hE3⟩ := inv_of_eq env s1 (append env s1 path name).2 a1 a2 m2
                have hchild : IsChild env node n1 := ⟨ls, name, c, hl, hlast, hg⟩
                have hlt : height n1 < fuel := by
                  have := hacyc node n1 hb hchild
                  omega
                obtain ⟨r1, r2, r3⟩ := ih n1 (append env s1 path name).2 result1
                  (append env s1 path name).1 (Below.step hb hchild) hlt hI3
                exact ⟨r1, r2,
                  Extends.trans hE2 (Extends.trans m3 (Extends.trans hE3 r3))⟩)
        (sortStrings ((loadLinksLoop ls st []).2.map Prod.fst))
        (loadLinksLoop ls st []).1 (result ++ [path]) ⟨hI1, Extends.refl _⟩
      exact ⟨key.1, key.2.1, Extends.trans hE1 key.2.2⟩

theorem forNames_congr
    (body1 body2 : State → List Slice → String → Outcome Unit × State × List Slice)
    (hb : ∀ st result name, (body1 st result name).1 ≠ .outOfFuel →
      body2 st result name = body1 st result name)
    (names : List String) :
    ∀ st result, (forNames body1 names st result).1 ≠ .outOfFuel →
      forNames body2 names st result = forNames body1 names st result := by
  induction names with
  | nil => intro st result _; rfl
  | cons name names ih =>
    intro st result h
    rcases h1 : body1 st result name with ⟨o, st1, r1⟩
    have hne : (body1 st result name).1 ≠ .outOfFuel := by
      intro hcontra
      rw [h1] at hcontra
      simp only at hcontra
      subst hcontra
      simp [forNames, h1] at h
    have h2 := hb st result name hne
    rw [h1] at h2
    simp only [forNames, h1, h2] at h ⊢
    cases o with
    | ok a => exact ih st1 r1 h
    | err e => rfl
    | panic e => rfl
    | outOfFuel => rfl

theorem descend_congr (env : Env)
    (self1 self2 : State → List Slice → Node → Slice → Outcome Unit × State × List Slice)
    (hs : ∀ st result node path, (self1 st result node path).1 ≠ .outOfFuel →
      self2 st result node path = self1 st result node path)
    (links : List (String × Nat)) (path : Slice) (st : State) (result : List Slice)
    (name : String) (h : (descend env self1 links path st result name).1 ≠ .outOfFuel) :
    descend env self2 links path st result name = descend env self1 links path st result name := by
  cases hk : mapGet links name with
  | none => simp only [descend, hk]
  | some child =>
    rcases hr : mustGetNode env st child [] with ⟨o1, s1⟩
    simp only [descend, hk, hr] at h ⊢
    cases o1 with
    | ok n => exact hs _ _ _ _ h
    | err e => rfl
    | panic e => rfl
    | outOfFuel => rfl

/-- A call of the closure that does not run out of fuel returns the same with
one more unit of fuel. -/
theorem recursive_succ (env : Env) :
    ∀ (fuel : Nat) (st : State) (result : List Slice) (node : Node) (path : Slice),
      (recursive env fuel st result node path).1 ≠ .outOfFuel →
      recursive env (fuel + 1) st result node path = recursive env fuel st result node path := by
  intro fuel
  induction fuel with
  | zero =>
    intro st result node path h
    simp [recursive] at h
  | succ fuel ih =>
    intro st result node path h
    rcases hl : linksOrNone env st node with ⟨links, st1⟩
    simp only [recursive, hl] at h
    have h1 : recursive env (fuel + 1 + 1) st result node path
        = forNames (descend env (recursive env (fuel + 1)) links path)
            (sortStrings (links.map Prod.fst)) st1 (result ++ [path]) := by
      simp only [recursive, hl]
    have h2 : recursive env (fuel + 1) st result node path
        = forNames (descend env (recursive env fuel) links path)
            (sortStrings (links.map Prod.fst)) st1 (result ++ [path]) := by
      simp only [recursive, hl]
    rw [h1, h2]
    exact forNames_congr _ _
      (fun st2 r2 name hne =>
        descend_congr env (recursive env fuel) (recursive env (fuel + 1)) ih links path st2 r2
          name hne) _ _ _ h

theorem recursive_add (env : Env) (fuel : Nat) (st : State) (result : List Slice)
    (node : Node) (path : Slice) (h : (recursive env fuel st result node path).1 ≠ .outOfFuel) :
    ∀ k, recursive env (fuel + k) st result node path = recursive env fuel st result node path := by
  intro k
  induction k with
  | zero => rfl
  | succ k ih =>
    have hne : (recursive env (fuel + k) st result node path).1 ≠ .outOfFuel := by
      rw [ih]
      exact h
    rw [← Nat.add_assoc, recursive_succ env (fuel + k) st result node path hne, ih]

/-- C14: when the start path resolves to `node` and some height decreases along
every link of the graph below `node`, the closure `recursive` called on `node`
with any recursion bound above the height of `node` does not exhaust the bound
and returns what it returns with the bound `height node + 1`, and so does
`listChildren`; `getNode`, a structural recursion on its segment list, involves no
bound at all. -/
theorem listChildren_terminates (env : Env) (height : Node → Nat) (st : State) (d : Nat)
    (names : Slice) (node : Node) (st1 : State) (hI : Inv env st)
    (hstart : getNode env st d (st.read names) = (.ok node, st1))
    (hacyc : ∀ n n1, Below env node n → IsChild env n n1 → height n1 < height n) :
    (∀ fuel result path, height node < fuel →
        (recursive env fuel st1 result node path).1 ≠ .outOfFuel ∧
        recursive env fuel st1 result node path
          = recursive env (height node + 1) st1 result node path) ∧
      (∀ fuel, height node < fuel →
        (listChildren env fuel st d names).1 ≠ .outOfFuel ∧
        listChildren env fuel st d names = listChildren env (height node + 1) st d names) ∧
      ∀ st0 d0 names0, (getNode env st0 d0 names0).1 ≠ .outOfFuel := by
  have hI1 : Inv env st1 := by
    have := getNode_inv env st d (st.read names) hI
    rw [hstart] at this
    exact this
  have hrec : ∀ fuel result path, height node < fuel →
      (recursive env fuel st1 result node path).1 ≠ .outOfFuel ∧
      recursive env fuel st1 result node path
        = recursive env (height node + 1) st1 result node path := by
    intro fuel result path hlt
    have h0 := (recursive_enough_fuel env height node hacyc (height node + 1) node st1 result
      path Below.refl (Nat.lt_succ_self _) hI1).1
    have heq := recursive_add env (height node + 1) st1 result node path h0
      (fuel - (height node + 1))
    have hfuel : height node + 1 + (fuel - (height node + 1)) = fuel := by omega
    rw [hfuel] at heq
    refine ⟨?_, heq⟩
    rw [heq]
    exact h0
  refine ⟨hrec, ?_, ?_⟩
  · intro fuel hlt
    obtain ⟨r1, r2⟩ := hrec fuel [] names hlt
    have heq : listChildren env fuel st d names
        = listChildren env (height node + 1) st d names := by
      simp only [listChildren, hstart, r2]
    refine ⟨?_, heq⟩
    rw [r2] at r1
    rw [heq]
    simp only [listChildren, hstart]
    rcases hr : recursive env (height node + 1) st1 [] node names with ⟨o, st2, result⟩
    rw [hr] at r1
    cases o with
    | ok a => simp
    | err e => simp
    | panic e => simp
    | outOfFuel => exact absurd rfl r1
  · intro st0 d0 names0
    exact getNodeLoop_ne_outOfFuel env names0 names0 st0 d0

theorem filesEnv_acyclic (n n1 : Node) (_hb : Below filesEnv (nodeOf 0) n)
    (hc : IsChild filesEnv n n1) : filesHeight n1 < filesHeight n := by
  obtain ⟨ls, name, c, h1, h2, h3⟩ := hc
  have hL : filesEnv.Links n
      = if n.cid = 0 then .ok [⟨"f", 1⟩, ⟨"g", 2⟩] else .error "not a directory" := rfl
  have hG : filesEnv.Get c = if c ≤ 2 then .ok (nodeOf c) else .error "block not found" := rfl
  by_cases h0 : n.cid = 0
  · rw [hL, if_pos h0] at h1
    cases h1
    have hc12 : c = 1 ∨ c = 2 := by
      simp only [lastLink] at h2
      by_cases hg : "g" = name
      · simp [hg] at h2
        exact Or.inr h2.symm
      · by_cases hf : "f" = name
        · simp [hg, hf] at h2
          exact Or.inl h2.symm
        · simp [hg, hf] at h2
    rcases hc12 with rfl | rfl
    · rw [hG] at h3
      cases h3
      simp [filesHeight, h0, nodeOf]
    · rw [hG] at h3
      cases h3
      simp [filesHeight, h0, nodeOf]
  · rw [hL, if_neg h0] at h1
    cases h1

/-- Witness of `listChildren_terminates`: the listing of the root of `filesEnv`,
of height 1, with the bound 7 and with the bound 2. -/
theorem listChildren_terminates_witness :
    Inv filesEnv (State.fresh 0) ∧
      getNode filesEnv (State.fresh 0) 0 ((State.fresh 0).read Slice.nil)
        = (.ok (nodeOf 0),
           { dags := [{ cid := 0, node := some (nodeOf 0), links := none }],
             arrays := [], gets := [0] }) ∧
      (∀ n n1, Below filesEnv (nodeOf 0) n → IsChild filesEnv n n1 →
        filesHeight n1 < filesHeight n) ∧
      (listChildren filesEnv 7 (State.fresh 0) 0 Slice.nil).1 ≠ .outOfFuel ∧
      listChildren filesEnv 7 (State.fresh 0) 0 Slice.nil
        = listChildren filesEnv (filesHeight (nodeOf 0) + 1) (State.fresh 0) 0 Slice.nil :=
  ⟨inv_fresh filesEnv 0, by decide, filesEnv_acyclic,
    (listChildren_terminates filesEnv filesHeight (State.fresh 0) 0 Slice.nil (nodeOf 0)
      { dags := [{ cid := 0, node := some (nodeOf 0), links := none }],
        arrays := [], gets := [0] }
      (inv_fresh filesEnv 0) (by decide) filesEnv_acyclic).2.1 7 (by decide)⟩

/-! ## Listed entries of nodes whose links cannot be extracted -/

/-- C4, failing inputs.  In `deepEnv` the extraction fails on the file `x` (node
4); the lister visits it, and `listChildren()` returns a nil error, but the
listing has no entry `a/b/c/x`: the entry recorded for `x` reads `a/b/c/y`.  In
`deeperEnv` the extraction fails on the file `q` (node 7), yet the listing holds
the entry `a/b/c/d/e/q/r` below the path of `q`. -/
theorem listChildren_file_entry_overwritten :
    deepEnv.Links (nodeOf 4) = .error "not a directory" ∧
      (listChildren deepEnv 5 (State.fresh 0) 0 Slice.nil).2.gets.filterMap
          (fun p => ((listChildren deepEnv 5 (State.fresh 0) 0 Slice.nil).2.dags[p]?).map
            UnixfsDag.cid)
        = [0, 1, 2, 3, 4, 5] ∧
      listChildrenPaths deepEnv 5 (State.fresh 0) 0 Slice.nil
        = .ok [["a"], ["a", "b"], ["a", "b", "c"], ["a", "b", "c", "y"], ["a", "b", "c", "y"]] ∧
      ["a", "b", "c", "x"]
        ∉ [["a"], ["a", "b"], ["a", "b", "c"], ["a", "b", "c", "y"], ["a", "b", "c", "y"]] ∧
      deeperEnv.Links (nodeOf 7) = .error "not a directory" ∧
      (getNode deeperEnv (State.fresh 0) 0 ["a", "b", "c", "d", "e", "q"]).1 = .ok (nodeOf 7) ∧
      listChildrenPaths deeperEnv 8 (State.fresh 0) 0 Slice.nil
        = .ok [["a"], ["a", "b"], ["a", "b", "c"], ["a", "b", "c", "d"],
            ["a", "b", "c", "d", "e"], ["a", "b", "c", "d", "e", "q"],
            ["a", "b", "c", "d", "e", "q", "r"], ["a", "b", "c", "d", "e", "q"]] ∧
      ["a", "b", "c", "d", "e", "q", "r"]
        ∈ [["a"], ["a", "b"], ["a", "b", "c"], ["a", "b", "c", "d"],
            ["a", "b", "c", "d", "e"], ["a", "b", "c", "d", "e", "q"],
            ["a", "b", "c", "d", "e", "q", "r"], ["a", "b", "c", "d", "e", "q"]] :=
  ⟨rfl, by decide, by decide, by decide, rfl, by decide, by decide, by decide⟩

/-! ## Outcomes of `FormatDagNode` -/

/-- C12, as amended: when `codec.Set` names the text it rejects (hypothesis
`hset`), `FormatDagNode` called with a codec name for which no encoder is
registered fails by panicking, returns no bytes, and its failure names the
requested codec: the failure is the error of `codec.Set`, which holds the
requested name, when `Set` rejects it, and is `invalid encoding:` followed by the
name of the codec and the error of the lookup when `Set` accepts it and no
encoder is found.  With a registered encoder it returns exactly the bytes the
encoder wrote if the encoder returns no error and panics with the error of the
encoder if it returns one; it returns bytes in no other case; and two calls with
the same node and codec return identical bytes. -/
theorem FormatDagNode_outcomes (mc : Multicodec) (node : Node) (codecStr : String)
    (hset : ∀ e, mc.Set codecStr = .error e → codecStr.data <:+: e.data) :
    (∀ e, mc.Set codecStr = .error e →
        FormatDagNode mc node codecStr = .panic e ∧ codecStr.data <:+: e.data) ∧
      (∀ codec e, mc.Set codecStr = .ok codec → mc.LookupEncoder codec = .error e →
        FormatDagNode mc node codecStr
            = .panic ("invalid encoding: " ++ mc.codeString codec ++ " - " ++ e) ∧
          (mc.codeString codec).data
            <:+: ("invalid encoding: " ++ mc.codeString codec ++ " - " ++ e).data) ∧
      (∀ codec encoder output, mc.Set codecStr = .ok codec →
        mc.LookupEncoder codec = .ok encoder → encoder node = (output, none) →
        FormatDagNode mc node codecStr = .ok output) ∧
      (∀ codec encoder output e, mc.Set codecStr = .ok codec →
        mc.LookupEncoder codec = .ok encoder → encoder node = (output, some e) →
        FormatDagNode mc node codecStr = .panic e) ∧
      (∀ output, FormatDagNode mc node codecStr = .ok output ↔
        ∃ codec encoder, mc.Set codecStr = .ok codec ∧
          mc.LookupEncoder codec = .ok encoder ∧ encoder node = (output, none)) ∧
      ∀ output1 output2, FormatDagNode mc node codecStr = .ok output1 →
        FormatDagNode mc node codecStr = .ok output2 → output1 = output2 := by
  obtain ⟨c1, c2, c3, c4⟩ := FormatDagNode_cases mc node codecStr
  refine ⟨fun e h => ⟨c1 e h, hset e h⟩, c2, c3, c4, ?_, ?_⟩
  · intro output
    constructor
    · intro h
      cases hs : mc.Set codecStr with
      | error e =>
        rw [c1 e hs] at h
        cases h
      | ok codec =>
        cases hl : mc.LookupEncoder codec with
        | error e =>
          rw [(c2 codec e hs hl).1] at h
          cases h
        | ok encoder =>
          rcases he : encoder node with ⟨out, oe⟩
          cases oe with
          | none =>
            rw [c3 codec encoder out hs hl he] at h
            cases h
            exact ⟨codec, encoder, rfl, hl, he⟩
          | some e =>
            rw [c4 codec encoder out e hs hl he] at h
            cases h
    · rintro ⟨codec, encoder, hs, hl, he⟩
      exact c3 codec encoder output hs hl he
  · intro output1 output2 h1 h2
    rw [h1] at h2
    cases h2
    rfl

/-- Witness of `FormatDagNode_outcomes`: the text `nonsense`, which the table
`sampleCodecs` rejects with an error that quotes it, whatever the other errors
of the table are. -/
theorem FormatDagNode_outcomes_witness :
    (∀ (noEncoder : Nat → Error) (wrongKind e : Error),
        (sampleCodecs (fun text => "unknown multicodec code: \"" ++ text ++ "\"")
          noEncoder wrongKind).Set "nonsense" = .error e →
        "nonsense".data <:+: e.data) ∧
      ∀ (noEncoder : Nat → Error) (wrongKind : Error),
        FormatDagNode
            (sampleCodecs (fun text => "unknown multicodec code: \"" ++ text ++ "\"")
              noEncoder wrongKind) (nodeOf 0) "nonsense"
          = .panic "unknown multicodec code: \"nonsense\"" ∧
        "nonsense".data <:+: "unknown multicodec code: \"nonsense\"".data :=
  ⟨fun _ _ e h => by
      cases h
      exact ⟨"unknown multicodec code: \"".data, "\"".data, rfl⟩,
    fun noEncoder wrongKind =>
      (FormatDagNode_outcomes
        (sampleCodecs (fun text => "unknown multicodec code: \"" ++ text ++ "\"")
          noEncoder wrongKind) (nodeOf 0) "nonsense"
        (fun e h => by
          cases h
          exact ⟨"unknown multicodec code: \"".data, "\"".data, rfl⟩)).1
        "unknown multicodec code: \"nonsense\"" rfl⟩

/-- C12, counterexample: in `sampleCodecs` the name `dag-pb` has a registered
encoder, which on the raw leaf 1 writes nothing and returns an error;
`FormatDagNode` does not return the bytes the encoder wrote (none), it panics
with that error, whatever the texts of the errors are. -/
theorem FormatDagNode_panics_on_encoder_error :
    (∀ (unknown : String → Error) (noEncoder : Nat → Error) (wrongKind : Error),
        ∃ encoder, (sampleCodecs unknown noEncoder wrongKind).Set "dag-pb" = .ok 112 ∧
          (sampleCodecs unknown noEncoder wrongKind).LookupEncoder 112 = .ok encoder ∧
          encoder (nodeOf 1) = ([], some wrongKind)) ∧
      (∀ (unknown : String → Error) (noEncoder : Nat → Error) (wrongKind : Error),
        FormatDagNode (sampleCodecs unknown noEncoder wrongKind) (nodeOf 1) "dag-pb"
          = .panic wrongKind) ∧
      ∀ (unknown : String → Error) (noEncoder : Nat → Error) (wrongKind : Error),
        FormatDagNode (sampleCodecs unknown noEncoder wrongKind) (nodeOf 1) "dag-pb" ≠ .ok [] :=
  ⟨fun _ _ wrongKind =>
      ⟨fun n => if n.cid = 1 then ([], some wrongKind) else (n.rawData, none), rfl, rfl, rfl⟩,
    fun _ _ _ => rfl,
    fun unknown noEncoder wrongKind h => by
      have h1 : FormatDagNode (sampleCodecs unknown noEncoder wrongKind) (nodeOf 1) "dag-pb"
          = .panic wrongKind := rfl
      rw [h1] at h
      cases h⟩

end Car
